import Mathlib

/-!
The playexr command-line launcher (`OpenEXR_Viewers/playexr/main.cpp`).

A shallow embedding of `main`, `usageMessage` and the C library conversions
`main` relies on, followed by theorems about the launcher's observable
behaviour: what is written to the error stream, the process exit status and
the arguments handed to `playExr`.

Conventions of the embedding

* `argv` is the argument vector as `main` sees it after `glutInit` returned;
  `argc` is its length.
* `int` is 32 bits and `long` is 64 bits (LP64); the implicit conversion
  `long → int` at an assignment wraps modulo `2^32`.
* `float` values are `CFloat`: NaN, the two infinities, or a finite value
  carried as a rational number.  `strtof` is a parameter of the model.
* the error stream is a list of lines.
-/

namespace PlayExr

/-! ## Machine integers -/

def LONG_MAX : Int := 2 ^ 63 - 1

def LONG_MIN : Int := -(2 ^ 63)

def INT_MAX : Int := 2 ^ 31 - 1

def INT_MIN : Int := -(2 ^ 31)

/-- Conversion `long → int` performed by the assignments
`numThreads = strtol (..)`, `firstFrame = strtol (..)` and
`lastFrame = strtol (..)`: the value is reduced modulo `2^32` into the range
of `int`. -/
def toInt (x : Int) : Int := (x + 2 ^ 31) % 2 ^ 32 - 2 ^ 31

/-! ## `strtol (s, 0, 0)` -/

/-- C `isspace` in the "C" locale: space, `\t`, `\n`, `\v`, `\f`, `\r`. -/
def isspace (c : Char) : Bool := c.toNat == 32 || (9 ≤ c.toNat && c.toNat ≤ 13)

/-- Value of a character as a digit (`0-9`, `a-z`, `A-Z`), if it is one. -/
def digitVal (c : Char) : Option Nat :=
  if 48 ≤ c.toNat ∧ c.toNat ≤ 57 then some (c.toNat - 48)
  else if 97 ≤ c.toNat ∧ c.toNat ≤ 122 then some (c.toNat - 87)
  else if 65 ≤ c.toNat ∧ c.toNat ≤ 90 then some (c.toNat - 55)
  else none

/-- Test whether `c` is a digit of the given base. -/
def isDigitOf (base : Nat) (c : Char) : Bool :=
  match digitVal c with
  | some d => decide (d < base)
  | none => false

/-- Accumulates the longest run of digits of the given base. -/
def scanDigits (base : Nat) : List Char → Nat → Nat
  | [], acc => acc
  | c :: cs, acc =>
    match digitVal c with
    | some d => if d < base then scanDigits base cs (acc * base + d) else acc
    | none => acc

/-- Base detection of `strtol` with base argument 0: a `0x`/`0X` that is
followed by a hexadecimal digit selects base 16, another leading `0`
selects base 8, everything else base 10.  Returns the base and the
characters the digits are read from. -/
def detectBase : List Char → Nat × List Char
  | c0 :: c1 :: c2 :: cs =>
    if c0.toNat = 48 ∧ (c1.toNat = 120 ∨ c1.toNat = 88) ∧ isDigitOf 16 c2 then (16, c2 :: cs)
    else if c0.toNat = 48 then (8, c0 :: c1 :: c2 :: cs)
    else (10, c0 :: c1 :: c2 :: cs)
  | cs =>
    match cs.head? with
    | some c0 => if c0.toNat = 48 then (8, cs) else (10, cs)
    | none => (10, cs)

/-- Splits an optional sign off the front: `true` for a leading `-`. -/
def takeSign : List Char → Bool × List Char
  | c :: cs =>
    if c.toNat = 45 then (true, cs)
    else if c.toNat = 43 then (false, cs)
    else (false, c :: cs)
  | [] => (false, [])

/-- The C library call `strtol (s, 0, 0)`: leading white space is skipped,
an optional sign is read, the base is detected, the digits are accumulated,
and a value outside the range of `long` is replaced by `LONG_MIN` or
`LONG_MAX`.  A string without digits converts to 0. -/
def strtol (s : String) : Int :=
  let signed := takeSign (s.toList.dropWhile isspace)
  let based := detectBase signed.2
  let mag : Int := (scanDigits based.1 based.2 0 : Nat)
  if signed.1 then max (-mag) LONG_MIN else min mag LONG_MAX

/-! ## `float` -/

/-- Values of the C type `float`. -/
inductive CFloat
  | nan
  | negInf
  | fin (q : ℚ)
  | posInf
deriving DecidableEq

namespace CFloat

/-- The comparison `a < b` of C (IEEE 754): false as soon as one side is a NaN. -/
def lt : CFloat → CFloat → Bool
  | nan, _ => false
  | _, nan => false
  | negInf, negInf => false
  | negInf, _ => true
  | fin _, negInf => false
  | fin a, fin b => decide (a < b)
  | fin _, posInf => true
  | posInf, _ => false

/-- The comparison `a > b` of C. -/
def gt (a b : CFloat) : Bool := lt b a

/-- Conversion `int → float` of a constant that is exactly representable. -/
def ofInt (n : Int) : CFloat := fin n

/-- A finite value that lies in the closed interval `[lo, hi]`. -/
def Within (lo hi : ℚ) : CFloat → Prop
  | fin q => lo ≤ q ∧ q ≤ hi
  | _ => False

end CFloat

/-! ## The launcher -/

/-- Arguments of one call of `playExr`. -/
structure PlayArgs where
  fileNameTemplate : Option String
  firstFrame : Int
  lastFrame : Int
  numThreads : Int
  fps : CFloat
  transformNames : List String
deriving DecidableEq

/-- What `main` takes from outside the file: the build option
`HAVE_CTL_INTERPRETER`, the C library's `strtof (s, 0)`, the answer of
`IlmThread::supportsThreads ()`, and `playExr`, which either returns
(`none`) or throws a `std::exception` whose `what ()` is the given text. -/
structure Env where
  haveCtl : Bool
  strtof : String → CFloat
  supportsThreads : Bool
  playExr : PlayArgs → Option String

/-- Local variables of `main` during the parsing loop.  `templateWrites` is
a ghost counter of the executions of `fileNameTemplate = argv[i]`. -/
structure PState where
  i : Nat
  j : Nat
  fileNameTemplate : Option String
  firstFrame : Int
  lastFrame : Int
  numThreads : Int
  fps : CFloat
  transformNames : List String
  templateWrites : Nat
deriving DecidableEq

/-- The variables as initialised before the loop (`i = 1`, `j = 0`). -/
def initState : PState :=
  { i := 1, j := 0, fileNameTemplate := none, firstFrame := 1, lastFrame := 1,
    numThreads := 0, fps := CFloat.fin (-1), transformNames := [], templateWrites := 0 }

/-- Result of one iteration of the loop body, and of the whole loop. -/
inductive Parsed
  | usage (verbose : Bool)
  | fail (msg : List String)
  | badRead
  | noFuel
  | next (s : PState)
deriving DecidableEq

def msgThreads : List String := ["Number of threads cannot be negative."]

def msgFps : List String := ["Playback speed must be between 1 and 1000 frames per second."]

def msgFrames : List String :=
  ["Frame number of first frame is greater than frame number of last frame."]

def msgNoThreads : List String := ["This program requires multi-threading support.", ""]

/-- The `switch (j)` of the final `else` branch. -/
def assignPositional (s : PState) (a : String) : PState :=
  match s.j with
  | 0 => { s with fileNameTemplate := some a, templateWrites := s.templateWrites + 1 }
  | 1 => { s with firstFrame := toInt (strtol a) }
  | 2 => { s with lastFrame := toInt (strtol a) }
  | _ => s

/-- One iteration of the body of `while (i < argc)`.  Reads of `argv` outside
`[0, argc)` are reported as `badRead`. -/
def step (env : Env) (argv : List String) (s : PState) : Parsed :=
  match argv[s.i]? with
  | none => .badRead
  | some a =>
    if a = "-t" then
      if (s.i : Int) > (argv.length : Int) - 2 then .usage false
      else
        match argv[s.i + 1]? with
        | none => .badRead
        | some v =>
          let numThreads := toInt (strtol v)
          if numThreads < 0 then .fail msgThreads
          else .next { s with numThreads := numThreads, i := s.i + 2 }
    else if a = "-f" then
      if (s.i : Int) > (argv.length : Int) - 2 then .usage false
      else
        match argv[s.i + 1]? with
        | none => .badRead
        | some v =>
          let fps := env.strtof v
          if CFloat.lt fps (CFloat.ofInt 1) || CFloat.gt fps (CFloat.ofInt 1000) then .fail msgFps
          else .next { s with fps := fps, i := s.i + 2 }
    else if a = "-C" then
      if (s.i : Int) > (argv.length : Int) - 2 then .usage false
      else
        match argv[s.i + 1]? with
        | none => .badRead
        | some v => .next { s with transformNames := s.transformNames ++ [v], i := s.i + 2 }
    else if a = "-h" then .usage true
    else
      let s1 := assignPositional s a
      .next { s1 with i := s.i + 1, j := s.j + 1 }

/-- The loop `while (i < argc)`, with a bound on the number of iterations. -/
def parseLoop (env : Env) (argv : List String) : Nat → PState → Parsed
  | 0, s => if s.i < argv.length then .noFuel else .next s
  | fuel + 1, s =>
    if s.i < argv.length then
      match step env argv s with
      | .next s1 => parseLoop env argv fuel s1
      | r => r
    else .next s

/-- The text printed by `usageMessage (argv0, true)` after the usage line. -/
def helpText (argv0 : String) (haveCtl : Bool) : List String :=
  [ "",
    "Plays back a sequence of OpenEXR files.  All files must",
    "have the same data window and the same set of channels.",
    "The names of the files are constructed by substituting",
    "the first '%' in fileName with firstFrame, firstFrame+1,",
    "firstFrame+2, ... lastFrame.  For example,",
    "",
    "       " ++ argv0 ++ " image.%.exr 1 100",
    "",
    "plays back image.1.exr, image.2.exr ... image.100.exr.",
    "",
    "Options:",
    "",
    "-t n   read the images using n parallel threads",
    "",
    "-f n   images will be played back at a rate of n frames",
    "       per second (assuming that reading and displaying",
    "       an individual image file takes no more than 1/n",
    "       seconds).",
    "" ] ++
  (if haveCtl then
    [ "-C s   CTL transform s is applied to each image before it",
      "       is displayed.  Option -C can be specified multiple",
      "       times to apply a series of transforms to each image.",
      "       The transforms are applied in the order in which",
      "       they appear on the command line.",
      "" ]
   else []) ++
  [ "-h     prints this message",
    "" ] ++
  (if haveCtl then
    [ "CTL transforms:",
      "",
      "       If one or more CTL transforms are specified on",
      "       the command line (using the -C flag), then those",
      "       transforms are applied to the images.",
      "       If no CTL transforms are specified on the command",
      "       line then a rendering transform is applied, followed",
      "       by a display transform.  The name of the rendering",
      "       transform is taken from the renderingTransform",
      "       attribute in the header of the first frame of the",
      "       image sequence.  If the header contains no such",
      "       attribute, the name of the rendering transform",
      "       is \"transform_RRT.\"  The name of the display",
      "       transform is taken from the environment variable",
      "       CTL_DISPLAY_TRANSFORM.  If this environment",
      "       variable is not set, the name of the display",
      "       transform is \"transform_display_video.\"",
      "       The files that contain the transforms are located",
      "       using the CTL_MODULE_PATH environment variable.",
      "" ]
   else []) ++
  [ "Playback frame rate:",
    "",
    "       If the frame rate is not specified on the command",
    "       line (using the -f flag), then the frame rate is",
    "       determined by the framesPerSecond attribute in the",
    "       header of the first frame of the image sequence.",
    "       If the header contains no framesPerSecond attribute",
    "       then the frame rate is set to 24 frames per second.",
    "",
    "Keyboard commands:",
    "",
    "       L or P       play forward / pause",
    "       H            play backward / pause",
    "       K            step one frame forward",
    "       J            step one frame backward",
    "       > or .       increase exposure",
    "       < or ,       decrease exposure" ] ++
  (if haveCtl then
    [ "       C            CTL transforms on/off" ]
   else []) ++
  [ "       O            text overlay on/off",
    "       F            full-screen mode on/off",
    "       Q or ESC     quit",
    "",
    "" ]

/-- The usage line, printed by every call of `usageMessage`. -/
def usageLine (argv0 : String) : String :=
  "usage: " ++ argv0 ++ " " ++ "[options] fileName [firstFrame lastFrame]"

/-- The lines `usageMessage (argv0, verbose)` writes to `cerr` before it
calls `exit (1)`. -/
def usageMessage (env : Env) (argv0 : String) (verbose : Bool) : List String :=
  usageLine argv0 :: (if verbose then helpText argv0 env.haveCtl else [])

/-- What can be observed of a finished run: the lines written to `cerr`, the
exit status of the process, whether `atexit (quickexit)` was executed, and
the calls of `playExr` in order. -/
structure Result where
  err : List String
  status : Int
  atexitHook : Bool
  calls : List PlayArgs
deriving DecidableEq

/-- A run of `main` either ends the process with a `Result`, or (in the
embedding only) reads `argv` out of range or exhausts the iteration bound. -/
inductive Outcome
  | exited (r : Result)
  | badRead
  | noFuel
deriving DecidableEq

/-- A call `usageMessage (argv[0], verbose)`: prints and ends the process with
status 1. -/
def usageExit (env : Env) (argv : List String) (verbose : Bool) : Outcome :=
  match argv[0]? with
  | none => .badRead
  | some argv0 =>
    .exited { err := usageMessage env argv0 verbose, status := 1, atexitHook := false, calls := [] }

/-- A `return 1` after a diagnostic was written. -/
def failExit (msg : List String) : Outcome :=
  .exited { err := msg, status := 1, atexitHook := false, calls := [] }

/-- The arguments `main` passes to `playExr`. -/
def playArgs (s : PState) : PlayArgs :=
  { fileNameTemplate := s.fileNameTemplate, firstFrame := s.firstFrame,
    lastFrame := s.lastFrame, numThreads := s.numThreads, fps := s.fps,
    transformNames := s.transformNames }

/-- The `try` block: the call of `playExr` after `atexit (quickexit)`, and
the `return exitStatus` that follows it. -/
def play (env : Env) (s : PState) : Outcome :=
  match env.playExr (playArgs s) with
  | none => .exited { err := [], status := 0, atexitHook := true, calls := [playArgs s] }
  | some what => .exited { err := [what], status := 1, atexitHook := true, calls := [playArgs s] }

/-- The part of `main` after the parsing loop. -/
def finish (env : Env) (argv : List String) (s : PState) : Outcome :=
  if s.j ≠ 1 ∧ s.j ≠ 3 then usageExit env argv false
  else if s.firstFrame > s.lastFrame then failExit msgFrames
  else if !env.supportsThreads then failExit msgNoThreads
  else play env s

/-- The parsing loop as `main` runs it: from the initial values of the
variables, with `argc` iterations allowed. -/
def parseArgs (env : Env) (argv : List String) : Parsed :=
  parseLoop env argv argv.length initState

/-- The function `main`, applied to the argument vector left by `glutInit`. -/
def main (env : Env) (argv : List String) : Outcome :=
  if argv.length < 2 then usageExit env argv true
  else
    match parseArgs env argv with
    | .usage verbose => usageExit env argv verbose
    | .fail msg => failExit msg
    | .badRead => .badRead
    | .noFuel => .noFuel
    | .next s => finish env argv s

/-- A `strtof` for worked examples.  It agrees with the C library on the
token `nan` (a NaN) and on plain decimal integers below `2^24` (their value,
which a `float` holds exactly); any other text is taken to 0. -/
def strtofSample (s : String) : CFloat :=
  if s = "nan" then CFloat.nan
  else if s.toList.all (fun c => isDigitOf 10 c) then CFloat.fin (scanDigits 10 s.toList 0 : Nat)
  else CFloat.fin 0

/-- An environment for worked examples: threads are supported and `playExr`
returns. -/
def sampleEnv : Env :=
  { haveCtl := true, strtof := strtofSample, supportsThreads := true, playExr := fun _ => none }

/-- The sample environment on a runtime without thread support. -/
def sampleEnvNoThreads : Env := { sampleEnv with supportsThreads := false }

/-! ## The argument vector as a sequence of items

The loop consumes one or two tokens per iteration.  `items` cuts the tokens
after `argv[0]` into the units the loop consumes; the theorems below are
stated with it. -/

/-- The flags that take a value: `-t`, `-f` and `-C`. -/
inductive Flag
  | threads
  | rate
  | transform
deriving DecidableEq

/-- The value-taking flag a token spells, if any. -/
def flagOf (a : String) : Option Flag :=
  if a = "-t" then some Flag.threads
  else if a = "-f" then some Flag.rate
  else if a = "-C" then some Flag.transform
  else none

/-- A token that is none of `-t`, `-f`, `-C`, `-h`. -/
def isPositional (a : String) : Bool := (flagOf a).isNone && a != "-h"

/-- A unit of the command line: a value-taking flag with its value, a `-h`,
a positional token, or a value-taking flag that is the last token. -/
inductive Item
  | opt (flag : Flag) (value : String)
  | help
  | pos (a : String)
  | dangling (flag : Flag)
deriving DecidableEq

/-- Cuts a token list into items; `pending` is a value-taking flag whose
value is the next token. -/
def itemsAux : Option Flag → List String → List Item
  | none, [] => []
  | some f, [] => [Item.dangling f]
  | some f, v :: rest => Item.opt f v :: itemsAux none rest
  | none, a :: rest =>
    match flagOf a with
    | some f => itemsAux (some f) rest
    | none =>
      if a = "-h" then Item.help :: itemsAux none rest
      else Item.pos a :: itemsAux none rest

def items (toks : List String) : List Item := itemsAux none toks

/-- The positional tokens among items. -/
def itemPositionals (its : List Item) : List String :=
  its.filterMap fun it => match it with
    | Item.pos a => some a
    | _ => none

/-- The values of the `-C` flags among items. -/
def itemTransforms (its : List Item) : List String :=
  its.filterMap fun it => match it with
    | Item.opt Flag.transform v => some v
    | _ => none

/-- The positional tokens of a command line, in order. -/
def positionalsOf (toks : List String) : List String := itemPositionals (items toks)

/-- The value tokens that follow a `-C` in flag position, in order. -/
def transformsOf (toks : List String) : List String := itemTransforms (items toks)

/-- Effect of the loop body on one item. -/
def applyItem (env : Env) (s : PState) : Item → Parsed
  | Item.opt Flag.threads v =>
    if toInt (strtol v) < 0 then .fail msgThreads
    else .next { s with numThreads := toInt (strtol v), i := s.i + 2 }
  | Item.opt Flag.rate v =>
    if CFloat.lt (env.strtof v) (CFloat.ofInt 1) || CFloat.gt (env.strtof v) (CFloat.ofInt 1000)
    then .fail msgFps
    else .next { s with fps := env.strtof v, i := s.i + 2 }
  | Item.opt Flag.transform v =>
    .next { s with transformNames := s.transformNames ++ [v], i := s.i + 2 }
  | Item.help => .usage true
  | Item.pos a => .next { assignPositional s a with i := s.i + 1, j := s.j + 1 }
  | Item.dangling _ => .usage false

/-- The loop as a left-to-right pass over the items. -/
def runItems (env : Env) : List Item → PState → Parsed
  | [], s => .next s
  | it :: rest, s =>
    match applyItem env s it with
    | .next s1 => runItems env rest s1
    | r => r

/-! ## Predicates used in the statements and proofs -/

/-- Two states agree on the variables the positional branch reads and writes. -/
def SamePos (s t : PState) : Prop :=
  s.j = t.j ∧ s.fileNameTemplate = t.fileNameTemplate ∧ s.firstFrame = t.firstFrame ∧
    s.lastFrame = t.lastFrame ∧ s.templateWrites = t.templateWrites

/-- The positional branch alone, applied to a list of positional tokens. -/
def posFold : List String → PState → PState
  | [], s => s
  | a :: ps, s => posFold ps { assignPositional s a with j := s.j + 1 }

/-- The frame number read from the `k`-th positional token, 1 when there is
no such token. -/
def frameArg (ps : List String) (k : Nat) : Int :=
  match ps[k]? with
  | some a => toInt (strtol a)
  | none => 1

/-- Parsing and validation succeeded: there are arguments, the loop ends
without leaving `main`, and the two checks after the loop pass. -/
def Validated (env : Env) (argv : List String) (s : PState) : Prop :=
  2 ≤ argv.length ∧ parseArgs env argv = .next s ∧ (s.j = 1 ∨ s.j = 3) ∧
    s.firstFrame ≤ s.lastFrame

/-- The two option variables that are checked when they are set. -/
def OptInv (s : PState) : Prop :=
  0 ≤ s.numThreads ∧
    (s.fps = CFloat.fin (-1) ∨
      (CFloat.lt s.fps (CFloat.ofInt 1) = false ∧ CFloat.gt s.fps (CFloat.ofInt 1000) = false))

/-- Test whether a file name template contains the character `%`, the
marker `playExr` replaces by the frame number. -/
def hasMarker (t : String) : Bool := t.toList.any fun c => c.toNat == 37

/-! ## The loop and the items -/

theorem flagOf_some (a : String) (f : Flag) (h : flagOf a = some f) :
    (a = "-t" ∧ f = Flag.threads) ∨ (a = "-f" ∧ f = Flag.rate) ∨
      (a = "-C" ∧ f = Flag.transform) := by
  unfold flagOf at h
  split_ifs at h <;> simp at h <;> simp_all

theorem flagOf_none (a : String) (h : flagOf a = none) : a ≠ "-t" ∧ a ≠ "-f" ∧ a ≠ "-C" := by
  unfold flagOf at h
  split_ifs at h with h1 h2 h3
  exact ⟨h1, h2, h3⟩

theorem items_nil : items [] = [] := rfl

theorem items_flag_last (a : String) (f : Flag) (h : flagOf a = some f) :
    items [a] = [Item.dangling f] := by
  simp [items, itemsAux, h]

theorem items_flag (a v : String) (rest : List String) (f : Flag) (h : flagOf a = some f) :
    items (a :: v :: rest) = Item.opt f v :: items rest := by
  simp [items, itemsAux, h]

theorem items_help (rest : List String) : items ("-h" :: rest) = Item.help :: items rest := by
  simp [items, itemsAux, flagOf]

theorem items_pos (a : String) (rest : List String) (h : flagOf a = none) (hh : a ≠ "-h") :
    items (a :: rest) = Item.pos a :: items rest := by
  simp [items, itemsAux, h, hh]

/-- One iteration of the loop consumes the first item of what is left of the
argument vector. -/
theorem step_spec (env : Env) (argv : List String) (s : PState) (hi : s.i < argv.length) :
    ∃ it k, 1 ≤ k ∧ items (argv.drop s.i) = it :: items (argv.drop (s.i + k)) ∧
      step env argv s = applyItem env s it ∧
      ∀ s1, applyItem env s it = .next s1 → s1.i = s.i + k := by
  have hd : argv.drop s.i = argv[s.i] :: argv.drop (s.i + 1) := List.drop_eq_getElem_cons hi
  have hget : argv[s.i]? = some argv[s.i] := List.getElem?_eq_getElem hi
  cases hv : flagOf argv[s.i] with
  | some f =>
    by_cases hl : s.i + 1 < argv.length
    · have hd1 : argv.drop (s.i + 1) = argv[s.i + 1] :: argv.drop (s.i + 2) :=
        List.drop_eq_getElem_cons hl
      have hget1 : argv[s.i + 1]? = some argv[s.i + 1] := List.getElem?_eq_getElem hl
      have hg : ¬ ((s.i : Int) > (argv.length : Int) - 2) := by omega
      refine ⟨Item.opt f argv[s.i + 1], 2, by omega, ?_, ?_, ?_⟩
      · rw [hd, hd1, items_flag _ _ _ f hv]
      · rcases flagOf_some _ f hv with ⟨h, hf⟩ | ⟨h, hf⟩ | ⟨h, hf⟩ <;> subst hf
        · simp [step, hget, hget1, h, hg, applyItem]
        · simp [step, hget, hget1, h, hg, applyItem]
        · simp [step, hget, hget1, h, hg, applyItem]
      · intro s1 h1
        cases f <;> simp only [applyItem] at h1
        · split_ifs at h1; simp at h1; subst h1; rfl
        · split_ifs at h1; simp at h1; subst h1; rfl
        · simp at h1; subst h1; rfl
    · have hd1 : argv.drop (s.i + 1) = [] := List.drop_eq_nil_of_le (by omega)
      have hg : (s.i : Int) > (argv.length : Int) - 2 := by omega
      refine ⟨Item.dangling f, 1, le_refl _, ?_, ?_, ?_⟩
      · rw [hd, hd1, items_flag_last _ f hv, items_nil]
      · rcases flagOf_some _ f hv with ⟨h, hf⟩ | ⟨h, hf⟩ | ⟨h, hf⟩ <;> subst hf
        · simp [step, hget, h, hg, applyItem]
        · simp [step, hget, h, hg, applyItem]
        · simp [step, hget, h, hg, applyItem]
      · intro s1 h1
        simp [applyItem] at h1
  | none =>
    have hne := flagOf_none _ hv
    by_cases hh : argv[s.i] = "-h"
    · refine ⟨Item.help, 1, le_refl _, ?_, ?_, ?_⟩
      · rw [hd, hh, items_help]
      · simp [step, hget, hh, applyItem]
      · intro s1 h1
        simp [applyItem] at h1
    · refine ⟨Item.pos argv[s.i], 1, le_refl _, ?_, ?_, ?_⟩
      · rw [hd, items_pos _ _ hv hh]
      · simp [step, hget, hne.1, hne.2.1, hne.2.2, hh, applyItem]
      · intro s1 h1
        simp [applyItem] at h1
        subst h1
        rfl

/-- With enough iterations allowed, the loop started at index `s.i` is the
pass over the items of the tokens from `s.i` on. -/
theorem parseLoop_eq_runItems (env : Env) (argv : List String) :
    ∀ (fuel : Nat) (s : PState), argv.length - s.i ≤ fuel →
      parseLoop env argv fuel s = runItems env (items (argv.drop s.i)) s := by
  intro fuel
  induction fuel with
  | zero =>
    intro s h
    have hi : ¬ s.i < argv.length := by omega
    rw [List.drop_eq_nil_of_le (by omega)]
    simp [parseLoop, hi, items_nil, runItems]
  | succ n ih =>
    intro s h
    by_cases hi : s.i < argv.length
    · obtain ⟨it, k, hk, hitems, hstep, hnext⟩ := step_spec env argv s hi
      rw [hitems]
      simp only [parseLoop, hi, if_true, hstep, runItems]
      cases happ : applyItem env s it with
      | next s1 =>
        have h1 := hnext s1 happ
        simp only []
        rw [ih s1 (by omega), h1]
      | usage v => rfl
      | fail m => rfl
      | badRead => rfl
      | noFuel => rfl
    · rw [List.drop_eq_nil_of_le (by omega)]
      simp [parseLoop, hi, items_nil, runItems]

/-! ## Facts about the pass over the items -/

theorem applyItem_ne_badRead (env : Env) (s : PState) (it : Item) :
    applyItem env s it ≠ .badRead := by
  cases it with
  | opt f v => cases f <;> simp only [applyItem] <;> (try split_ifs) <;> simp
  | help => simp [applyItem]
  | pos a => simp [applyItem]
  | dangling f => simp [applyItem]

theorem applyItem_ne_noFuel (env : Env) (s : PState) (it : Item) :
    applyItem env s it ≠ .noFuel := by
  cases it with
  | opt f v => cases f <;> simp only [applyItem] <;> (try split_ifs) <;> simp
  | help => simp [applyItem]
  | pos a => simp [applyItem]
  | dangling f => simp [applyItem]

theorem runItems_cons_next (env : Env) (it : Item) (rest : List Item) (s s1 : PState)
    (h : applyItem env s it = .next s1) :
    runItems env (it :: rest) s = runItems env rest s1 := by
  simp [runItems, h]

theorem runItems_cons_of_next (env : Env) (it : Item) (rest : List Item) (s s2 : PState)
    (h : runItems env (it :: rest) s = .next s2) :
    ∃ s1, applyItem env s it = .next s1 ∧ runItems env rest s1 = .next s2 := by
  cases happ : applyItem env s it with
  | next s1 => exact ⟨s1, rfl, by rw [runItems_cons_next env it rest s s1 happ] at h; exact h⟩
  | usage v => simp [runItems, happ] at h
  | fail m => simp [runItems, happ] at h
  | badRead => simp [runItems, happ] at h
  | noFuel => simp [runItems, happ] at h

theorem runItems_ne_badRead (env : Env) : ∀ (its : List Item) (s : PState),
    runItems env its s ≠ .badRead := by
  intro its
  induction its with
  | nil => intro s; simp [runItems]
  | cons it rest ih =>
    intro s
    cases happ : applyItem env s it with
    | next s1 => rw [runItems_cons_next env it rest s s1 happ]; exact ih s1
    | usage v => simp [runItems, happ]
    | fail m => simp [runItems, happ]
    | badRead => exact absurd happ (applyItem_ne_badRead env s it)
    | noFuel => exact absurd happ (applyItem_ne_noFuel env s it)

theorem runItems_ne_noFuel (env : Env) : ∀ (its : List Item) (s : PState),
    runItems env its s ≠ .noFuel := by
  intro its
  induction its with
  | nil => intro s; simp [runItems]
  | cons it rest ih =>
    intro s
    cases happ : applyItem env s it with
    | next s1 => rw [runItems_cons_next env it rest s s1 happ]; exact ih s1
    | usage v => simp [runItems, happ]
    | fail m => simp [runItems, happ]
    | badRead => exact absurd happ (applyItem_ne_badRead env s it)
    | noFuel => exact absurd happ (applyItem_ne_noFuel env s it)

theorem runItems_append (env : Env) : ∀ (a b : List Item) (s s1 : PState),
    runItems env a s = .next s1 → runItems env (a ++ b) s = runItems env b s1 := by
  intro a
  induction a with
  | nil => intro b s s1 h; simp [runItems] at h; subst h; rfl
  | cons it rest ih =>
    intro b s s1 h
    obtain ⟨s0, h0, h1⟩ := runItems_cons_of_next env it rest s s1 h
    rw [List.cons_append, runItems_cons_next env it (rest ++ b) s s0 h0]
    exact ih b s0 s1 h1

theorem runItems_no_dangling (env : Env) : ∀ (its : List Item) (s s1 : PState),
    runItems env its s = .next s1 → ∀ f, Item.dangling f ∉ its := by
  intro its
  induction its with
  | nil => intro s s1 _ f; simp
  | cons it rest ih =>
    intro s s1 h f
    obtain ⟨s0, h0, h1⟩ := runItems_cons_of_next env it rest s s1 h
    intro hmem
    rcases List.mem_cons.1 hmem with hf | hf
    · subst hf
      simp [applyItem] at h0
    · exact ih s0 s1 h1 f hf

theorem itemsAux_append : ∀ (front : List String) (p : Option Flag) (rest : List String),
    (∀ f, Item.dangling f ∉ itemsAux p front) →
      itemsAux p (front ++ rest) = itemsAux p front ++ items rest := by
  intro front
  induction front with
  | nil =>
    intro p rest h
    cases p with
    | none => simp [itemsAux, items]
    | some f => exact absurd (by simp [itemsAux]) (h f)
  | cons a front ih =>
    intro p rest h
    cases p with
    | some f =>
      simp only [itemsAux, List.cons_append] at h ⊢
      have e := ih none rest (fun g hg => h g (List.mem_cons_of_mem _ hg))
      exact congrArg (List.cons _) e
    | none =>
      simp only [itemsAux, List.cons_append] at h ⊢
      cases hfl : flagOf a with
      | some f =>
        simp only [hfl] at h ⊢
        exact ih (some f) rest h
      | none =>
        simp only [hfl] at h ⊢
        split_ifs at h ⊢ with h2
        · have e := ih none rest (fun g hg => h g (List.mem_cons_of_mem _ hg))
          exact congrArg (List.cons _) e
        · have e := ih none rest (fun g hg => h g (List.mem_cons_of_mem _ hg))
          exact congrArg (List.cons _) e

theorem items_append_of_run (env : Env) (front rest : List String) (s s1 : PState)
    (h : runItems env (items front) s = .next s1) :
    items (front ++ rest) = items front ++ items rest :=
  itemsAux_append front none rest (runItems_no_dangling env (items front) s s1 h)

theorem parseArgs_cons (env : Env) (argv0 : String) (rest : List String) :
    parseArgs env (argv0 :: rest) = runItems env (items rest) initState := by
  have h := parseLoop_eq_runItems env (argv0 :: rest) (argv0 :: rest).length initState
    (Nat.sub_le _ _)
  simpa [parseArgs, initState] using h

/-! ## The variables at the end of the loop -/

theorem assignPositional_j (s : PState) (a : String) : (assignPositional s a).j = s.j := by
  unfold assignPositional
  split <;> rfl

theorem samePos_assign (s t : PState) (a : String) (h : SamePos s t) :
    SamePos { assignPositional s a with i := s.i + 1, j := s.j + 1 }
      { assignPositional t a with j := t.j + 1 } := by
  obtain ⟨h1, h2, h3, h4, h5⟩ := h
  unfold SamePos assignPositional
  rw [← h1]
  split <;> simp_all

theorem applyItem_samePos (env : Env) (s t s1 : PState) (it : Item) (h : SamePos s t)
    (happ : applyItem env s it = .next s1) :
    SamePos s1 (posFold (itemPositionals [it]) t) := by
  cases it with
  | opt f v =>
    cases f <;> simp only [applyItem] at happ
    · split_ifs at happ; simp at happ; subst happ; exact h
    · split_ifs at happ; simp at happ; subst happ; exact h
    · simp at happ; subst happ; exact h
  | help => simp [applyItem] at happ
  | dangling f => simp [applyItem] at happ
  | pos a =>
    simp only [applyItem, Parsed.next.injEq] at happ
    subst happ
    exact samePos_assign s t a h

theorem itemPositionals_cons (it : Item) (rest : List Item) :
    itemPositionals (it :: rest) = itemPositionals [it] ++ itemPositionals rest := by
  cases it <;> simp [itemPositionals, List.filterMap_cons]

theorem posFold_append : ∀ (a b : List String) (s : PState),
    posFold (a ++ b) s = posFold b (posFold a s) := by
  intro a
  induction a with
  | nil => intro b s; rfl
  | cons x xs ih => intro b s; simp only [List.cons_append, posFold]; exact ih b _

theorem runItems_samePos (env : Env) : ∀ (its : List Item) (s t s1 : PState),
    SamePos s t → runItems env its s = .next s1 →
      SamePos s1 (posFold (itemPositionals its) t) := by
  intro its
  induction its with
  | nil =>
    intro s t s1 h hr
    simp [runItems] at hr
    subst hr
    exact h
  | cons it rest ih =>
    intro s t s1 h hr
    obtain ⟨s0, h0, h1⟩ := runItems_cons_of_next env it rest s s1 hr
    rw [itemPositionals_cons, posFold_append]
    exact ih s0 _ s1 (applyItem_samePos env s t s0 it h h0) h1

theorem posFold_ge3 : ∀ (ps : List String) (s : PState), 3 ≤ s.j →
    SamePos (posFold ps s) { s with j := s.j + ps.length } := by
  intro ps
  induction ps with
  | nil => intro s _; exact ⟨rfl, rfl, rfl, rfl, rfl⟩
  | cons a ps ih =>
    intro s h
    have ha : assignPositional s a = s := by
      unfold assignPositional
      split <;> first | rfl | omega
    have := ih { assignPositional s a with j := s.j + 1 } (by simp; omega)
    simp only [posFold]
    rw [ha] at this ⊢
    obtain ⟨h1, h2, h3, h4, h5⟩ := this
    refine ⟨?_, h2, h3, h4, h5⟩
    rw [h1]
    simp only [List.length_cons]
    omega

/-- The variables written by the positional branch, as a function of the
positional tokens, when the loop starts from the initial values. -/
theorem posFold_init (ps : List String) :
    (posFold ps initState).j = ps.length ∧
    (posFold ps initState).fileNameTemplate = ps[0]? ∧
    (posFold ps initState).firstFrame = frameArg ps 1 ∧
    (posFold ps initState).lastFrame = frameArg ps 2 ∧
    (posFold ps initState).templateWrites = min 1 ps.length := by
  match ps with
  | [] => simp [posFold, initState, frameArg]
  | [a] => simp [posFold, initState, frameArg, assignPositional]
  | [a, b] => simp [posFold, initState, frameArg, assignPositional]
  | a :: b :: c :: more =>
    have h := posFold_ge3 more
      { initState with j := 3, fileNameTemplate := some a, firstFrame := toInt (strtol b),
                       lastFrame := toInt (strtol c), templateWrites := 1 } (le_refl _)
    have e : posFold (a :: b :: c :: more) initState = posFold more
      { initState with j := 3, fileNameTemplate := some a, firstFrame := toInt (strtol b),
                       lastFrame := toInt (strtol c), templateWrites := 1 } := by
      simp [posFold, initState, assignPositional]
    rw [e]
    obtain ⟨h1, h2, h3, h4, h5⟩ := h
    rw [h1, h2, h3, h4, h5]
    simp [frameArg]
    omega

/-- At the end of an error-free pass from the initial values, `j` counts the
positional tokens, and the template and the frame numbers are read from the
first three of them. -/
theorem runItems_init_positionals (env : Env) (its : List Item) (s : PState)
    (h : runItems env its initState = .next s) :
    s.j = (itemPositionals its).length ∧
    s.fileNameTemplate = (itemPositionals its)[0]? ∧
    s.firstFrame = frameArg (itemPositionals its) 1 ∧
    s.lastFrame = frameArg (itemPositionals its) 2 ∧
    s.templateWrites = min 1 (itemPositionals its).length := by
  obtain ⟨h1, h2, h3, h4, h5⟩ :=
    runItems_samePos env its initState initState s ⟨rfl, rfl, rfl, rfl, rfl⟩ h
  obtain ⟨g1, g2, g3, g4, g5⟩ := posFold_init (itemPositionals its)
  exact ⟨h1.trans g1, h2.trans g2, h3.trans g3, h4.trans g4, h5.trans g5⟩

theorem runItems_transforms (env : Env) : ∀ (its : List Item) (s s1 : PState),
    runItems env its s = .next s1 →
      s1.transformNames = s.transformNames ++ itemTransforms its := by
  intro its
  induction its with
  | nil =>
    intro s s1 h
    simp [runItems] at h
    subst h
    simp [itemTransforms]
  | cons it rest ih =>
    intro s s1 h
    obtain ⟨s0, h0, h1⟩ := runItems_cons_of_next env it rest s s1 h
    rw [ih s0 s1 h1]
    cases it with
    | opt f v =>
      cases f <;> simp only [applyItem] at h0
      · split_ifs at h0; simp at h0; subst h0
        simp [itemTransforms, List.filterMap_cons]
      · split_ifs at h0; simp at h0; subst h0
        simp [itemTransforms, List.filterMap_cons]
      · simp at h0; subst h0
        simp [itemTransforms, List.filterMap_cons]
    | help => simp [applyItem] at h0
    | dangling f => simp [applyItem] at h0
    | pos a =>
      simp only [applyItem, Parsed.next.injEq] at h0
      subst h0
      have : (assignPositional s a).transformNames = s.transformNames := by
        unfold assignPositional
        split <;> rfl
      simp [itemTransforms, List.filterMap_cons, this]

/-! ## `main` by the result of the loop -/

theorem usageExit_cons (env : Env) (argv0 : String) (rest : List String) (verbose : Bool) :
    usageExit env (argv0 :: rest) verbose =
      .exited { err := usageMessage env argv0 verbose, status := 1, atexitHook := false,
                calls := [] } := by
  simp [usageExit]

theorem main_nil (env : Env) (argv0 : String) :
    main env [argv0] =
      .exited { err := usageMessage env argv0 true, status := 1, atexitHook := false,
                calls := [] } := by
  simp [main, usageExit]

theorem parseArgs_nil (env : Env) (argv0 : String) : parseArgs env [argv0] = .next initState := by
  simp [parseArgs, parseLoop, initState]

theorem main_of_next (env : Env) (argv0 : String) (rest : List String) (s : PState)
    (hne : rest ≠ []) (h : parseArgs env (argv0 :: rest) = .next s) :
    main env (argv0 :: rest) = finish env (argv0 :: rest) s := by
  have hl : ¬ (argv0 :: rest).length < 2 := by
    cases rest with
    | nil => exact absurd rfl hne
    | cons a r => simp
  simp only [main, hl, if_false, h]

theorem main_of_fail (env : Env) (argv0 : String) (rest : List String) (msg : List String)
    (h : parseArgs env (argv0 :: rest) = .fail msg) :
    main env (argv0 :: rest) = failExit msg := by
  have hl : ¬ (argv0 :: rest).length < 2 := by
    cases rest with
    | nil => rw [parseArgs_nil] at h; exact absurd h (by simp)
    | cons a r => simp
  simp only [main, hl, if_false, h]

theorem main_of_usage (env : Env) (argv0 : String) (rest : List String) (verbose : Bool)
    (h : parseArgs env (argv0 :: rest) = .usage verbose) :
    main env (argv0 :: rest) =
      .exited { err := usageMessage env argv0 verbose, status := 1, atexitHook := false,
                calls := [] } := by
  have hl : ¬ (argv0 :: rest).length < 2 := by
    cases rest with
    | nil => rw [parseArgs_nil] at h; exact absurd h (by simp)
    | cons a r => simp
  simp only [main, hl, if_false, h, usageExit_cons]

theorem parseArgs_ne_badRead (env : Env) (argv0 : String) (rest : List String) :
    parseArgs env (argv0 :: rest) ≠ .badRead := by
  rw [parseArgs_cons]
  exact runItems_ne_badRead env _ _

theorem parseArgs_ne_noFuel (env : Env) (argv0 : String) (rest : List String) :
    parseArgs env (argv0 :: rest) ≠ .noFuel := by
  rw [parseArgs_cons]
  exact runItems_ne_noFuel env _ _

/-- The three ways `main` ends: through `usageMessage`, through a `return 1`
after a diagnostic, or through the call of `playExr`. -/
theorem main_cases (env : Env) (argv0 : String) (rest : List String) :
    (∃ v, main env (argv0 :: rest) =
        .exited { err := usageMessage env argv0 v, status := 1, atexitHook := false,
                  calls := [] }) ∨
    (∃ m, main env (argv0 :: rest) = failExit m) ∨
    (∃ s, Validated env (argv0 :: rest) s ∧ env.supportsThreads = true ∧
        main env (argv0 :: rest) = play env s) := by
  cases rest with
  | nil => exact Or.inl ⟨true, main_nil env argv0⟩
  | cons a rest =>
    cases hp : parseArgs env (argv0 :: a :: rest) with
    | badRead => exact absurd hp (parseArgs_ne_badRead env _ _)
    | noFuel => exact absurd hp (parseArgs_ne_noFuel env _ _)
    | usage v => exact Or.inl ⟨v, main_of_usage env argv0 _ v hp⟩
    | fail m => exact Or.inr (Or.inl ⟨m, main_of_fail env argv0 _ m hp⟩)
    | next s =>
      have hm := main_of_next env argv0 (a :: rest) s (by simp) hp
      by_cases hj : s.j ≠ 1 ∧ s.j ≠ 3
      · refine Or.inl ⟨false, ?_⟩
        rw [hm]; simp [finish, hj, usageExit_cons]
      · by_cases hf : s.firstFrame > s.lastFrame
        · refine Or.inr (Or.inl ⟨msgFrames, ?_⟩)
          rw [hm]; simp [finish, hj, hf]
        · cases ht : env.supportsThreads with
          | false =>
            refine Or.inr (Or.inl ⟨msgNoThreads, ?_⟩)
            rw [hm]; simp [finish, hj, hf, ht]
          | true =>
            refine Or.inr (Or.inr ⟨s, ⟨by simp, hp, by omega, by omega⟩, rfl, ?_⟩)
            rw [hm]; simp [finish, hj, hf, ht]

theorem play_calls (env : Env) (s : PState) :
    ∃ r, play env s = .exited r ∧ r.calls = [playArgs s] ∧ r.atexitHook = true := by
  unfold play
  cases env.playExr (playArgs s) with
  | none => exact ⟨_, rfl, rfl, rfl⟩
  | some what => exact ⟨_, rfl, rfl, rfl⟩

/-- Every call of `playExr` is made after parsing and validation succeeded
and threads were reported, with the variables left by the loop. -/
theorem main_calls (env : Env) (argv0 : String) (rest : List String) (r : Result)
    (a : PlayArgs) (h : main env (argv0 :: rest) = .exited r) (ha : a ∈ r.calls) :
    ∃ s, Validated env (argv0 :: rest) s ∧ env.supportsThreads = true ∧ a = playArgs s := by
  rcases main_cases env argv0 rest with ⟨v, hv⟩ | ⟨m, hm⟩ | ⟨s, hval, ht, hs⟩
  · rw [hv] at h
    have := Outcome.exited.inj h
    subst this
    simp at ha
  · rw [hm] at h
    have := Outcome.exited.inj h
    subst this
    simp at ha
  · obtain ⟨r1, hr1, hc, _⟩ := play_calls env s
    rw [hs, hr1] at h
    have := Outcome.exited.inj h
    subst this
    rw [hc] at ha
    exact ⟨s, hval, ht, by simpa using ha⟩

/-- The loop variables in terms of the tokens, when the loop ends without
leaving `main`. -/
theorem parseArgs_positionals (env : Env) (argv0 : String) (rest : List String) (s : PState)
    (h : parseArgs env (argv0 :: rest) = .next s) :
    s.j = (positionalsOf rest).length ∧
    s.fileNameTemplate = (positionalsOf rest)[0]? ∧
    s.firstFrame = frameArg (positionalsOf rest) 1 ∧
    s.lastFrame = frameArg (positionalsOf rest) 2 ∧
    s.templateWrites = min 1 (positionalsOf rest).length := by
  rw [parseArgs_cons] at h
  exact runItems_init_positionals env (items rest) s h

/-- The loop at a value-taking flag that stands in flag position after
tokens that were parsed without error. -/
theorem parseArgs_at_flag (env : Env) (argv0 : String) (front : List String) (a v : String)
    (post : List String) (s : PState) (f : Flag)
    (h : parseArgs env (argv0 :: front) = .next s) (hf : flagOf a = some f) :
    parseArgs env (argv0 :: (front ++ a :: v :: post)) =
      runItems env (Item.opt f v :: items post) s := by
  rw [parseArgs_cons] at h ⊢
  rw [items_append_of_run env front (a :: v :: post) initState s h, items_flag a v post f hf]
  exact runItems_append env (items front) _ initState s h

theorem toInt_of_range (x : Int) (h1 : INT_MIN ≤ x) (h2 : x ≤ INT_MAX) : toInt x = x := by
  unfold INT_MIN at h1
  unfold INT_MAX at h2
  unfold toInt
  omega

theorem toInt_range (x : Int) : INT_MIN ≤ toInt x ∧ toInt x ≤ INT_MAX := by
  unfold INT_MIN INT_MAX toInt
  omega

theorem runItems_optInv (env : Env) : ∀ (its : List Item) (s s1 : PState),
    OptInv s → runItems env its s = .next s1 → OptInv s1 := by
  intro its
  induction its with
  | nil =>
    intro s s1 hinv h
    simp [runItems] at h
    subst h
    exact hinv
  | cons it rest ih =>
    intro s s1 hinv h
    obtain ⟨s0, h0, h1⟩ := runItems_cons_of_next env it rest s s1 h
    refine ih s0 s1 ?_ h1
    cases it with
    | opt f v =>
      cases f <;> simp only [applyItem] at h0
      · split_ifs at h0 with hn
        simp at h0; subst h0
        exact ⟨by simpa using hn, hinv.2⟩
      · split_ifs at h0 with hn
        simp at h0; subst h0
        refine ⟨hinv.1, Or.inr ?_⟩
        simpa using hn
      · simp at h0; subst h0
        exact hinv
    | help => simp [applyItem] at h0
    | dangling f => simp [applyItem] at h0
    | pos a =>
      simp only [applyItem, Parsed.next.injEq] at h0
      subst h0
      unfold OptInv assignPositional
      split <;> exact hinv

theorem CFloat.within_of_checks (x : CFloat) (hx : x ≠ CFloat.nan)
    (h1 : CFloat.lt x (CFloat.ofInt 1) = false) (h2 : CFloat.gt x (CFloat.ofInt 1000) = false) :
    CFloat.Within 1 1000 x := by
  cases x with
  | nan => exact absurd rfl hx
  | negInf => simp [CFloat.lt, CFloat.ofInt] at h1
  | posInf => simp [CFloat.gt, CFloat.lt, CFloat.ofInt] at h2
  | fin q =>
    simp [CFloat.lt, CFloat.ofInt] at h1
    simp [CFloat.gt, CFloat.lt, CFloat.ofInt] at h2
    exact ⟨h1, h2⟩

/-- What holds of the arguments of every call of `playExr`: the template was
assigned exactly once and is not null, the frame numbers are in order, the
thread count is not negative, and the frame rate is the initial -1, a value
in `[1, 1000]`, or a NaN. -/
theorem playback_config_invariant (env : Env) (argv0 : String) (rest : List String)
    (r : Result) (a : PlayArgs) (h : main env (argv0 :: rest) = .exited r) (ha : a ∈ r.calls) :
    (∃ s t, parseArgs env (argv0 :: rest) = .next s ∧ a = playArgs s ∧
        s.templateWrites = 1 ∧ a.fileNameTemplate = some t) ∧
    a.firstFrame ≤ a.lastFrame ∧ 0 ≤ a.numThreads ∧
    (a.fps = CFloat.fin (-1) ∨ CFloat.Within 1 1000 a.fps ∨ a.fps = CFloat.nan) := by
  obtain ⟨s, ⟨_, hp, hj, hfl⟩, _, hs⟩ := main_calls env argv0 rest r a h ha
  obtain ⟨h1, h2, _, _, h5⟩ := parseArgs_positionals env argv0 rest s hp
  have hinv : OptInv s := by
    rw [parseArgs_cons] at hp
    exact runItems_optInv env _ initState s ⟨le_refl _, Or.inl rfl⟩ hp
  have hlen : 1 ≤ (positionalsOf rest).length := by omega
  subst hs
  refine ⟨?_, hfl, hinv.1, ?_⟩
  · cases hps : positionalsOf rest with
    | nil => rw [hps] at hlen; simp at hlen
    | cons t ps =>
      refine ⟨s, t, hp, rfl, by omega, ?_⟩
      rw [hps] at h2
      simpa [playArgs] using h2
  · rcases hinv.2 with h | ⟨h, h'⟩
    · exact Or.inl h
    · by_cases hn : s.fps = CFloat.nan
      · exact Or.inr (Or.inr hn)
      · exact Or.inr (Or.inl (CFloat.within_of_checks _ hn h h'))

theorem isPositional_iff (a : String) :
    isPositional a = true ↔ flagOf a = none ∧ a ≠ "-h" := by
  simp [isPositional]

/-- The list `transformsOf` read token by token: a `-C` in flag position
contributes the token after it, `-t` and `-f` skip the token after them, and
every other token contributes nothing. -/
theorem transformsOf_eqns (a v : String) (rest : List String) :
    transformsOf [] = [] ∧
    transformsOf ("-C" :: v :: rest) = v :: transformsOf rest ∧
    transformsOf ("-t" :: v :: rest) = transformsOf rest ∧
    transformsOf ("-f" :: v :: rest) = transformsOf rest ∧
    (flagOf a = none → transformsOf (a :: rest) = transformsOf rest) := by
  refine ⟨rfl, ?_, ?_, ?_, ?_⟩
  · simp [transformsOf, items_flag "-C" v rest Flag.transform rfl, itemTransforms]
  · simp [transformsOf, items_flag "-t" v rest Flag.threads rfl, itemTransforms]
  · simp [transformsOf, items_flag "-f" v rest Flag.rate rfl, itemTransforms]
  · intro h
    by_cases hh : a = "-h"
    · subst hh
      simp [transformsOf, items_help, itemTransforms]
    · simp [transformsOf, items_pos a rest h hh, itemTransforms]

/-! ## The loop index -/

/-- An iteration that stays in the loop moves the index forward and not
beyond `argc`. -/
theorem step_next_index (env : Env) (argv : List String) (s s1 : PState)
    (hi : s.i < argv.length) (h : step env argv s = .next s1) :
    s.i < s1.i ∧ s1.i ≤ argv.length := by
  have hget : argv[s.i]? = some argv[s.i] := List.getElem?_eq_getElem hi
  by_cases hl : s.i + 1 < argv.length
  · have hget1 : argv[s.i + 1]? = some argv[s.i + 1] := List.getElem?_eq_getElem hl
    have hg : ¬ ((s.i : Int) > (argv.length : Int) - 2) := by omega
    simp only [step, hget, hget1, hg, if_false] at h
    split_ifs at h <;> simp at h <;> subst h <;> simp <;> omega
  · have hg : (s.i : Int) > (argv.length : Int) - 2 := by omega
    simp only [step, hget, hg, if_true] at h
    split_ifs at h
    simp at h
    subst h
    simp
    omega

theorem parseLoop_index (env : Env) (argv : List String) :
    ∀ (fuel : Nat) (s s1 : PState), s.i ≤ argv.length →
      parseLoop env argv fuel s = .next s1 → s1.i = argv.length := by
  intro fuel
  induction fuel with
  | zero =>
    intro s s1 hle h
    simp only [parseLoop] at h
    split_ifs at h with hi
    simp at h
    subst h
    omega
  | succ n ih =>
    intro s s1 hle h
    simp only [parseLoop] at h
    split_ifs at h with hi
    · cases hstep : step env argv s with
      | next s0 =>
        rw [hstep] at h
        exact ih s0 s1 (step_next_index env argv s s0 hi hstep).2 h
      | usage v => rw [hstep] at h; simp at h
      | fail m => rw [hstep] at h; simp at h
      | badRead => rw [hstep] at h; simp at h
      | noFuel => rw [hstep] at h; simp at h
    · simp at h
      subst h
      omega

/-- When the loop ends without leaving `main`, the index is `argc`. -/
theorem parseArgs_index (env : Env) (argv0 : String) (front : List String) (s : PState)
    (h : parseArgs env (argv0 :: front) = .next s) : s.i = front.length + 1 := by
  have := parseLoop_index env (argv0 :: front) _ initState s (by simp [initState]) h
  simpa using this

/-- Tokens that parse without error leave the loop, on a longer argument
vector, in the same state at the first token behind them. -/
theorem parseArgs_resume (env : Env) (argv0 : String) (front tail : List String) (s : PState)
    (h : parseArgs env (argv0 :: front) = .next s) :
    parseArgs env (argv0 :: (front ++ tail)) =
      parseLoop env (argv0 :: (front ++ tail)) (argv0 :: (front ++ tail)).length s := by
  have hi := parseArgs_index env argv0 front s h
  rw [parseArgs_cons] at h
  rw [parseArgs_cons, items_append_of_run env front tail initState s h,
    runItems_append env (items front) (items tail) initState s h,
    parseLoop_eq_runItems env (argv0 :: (front ++ tail)) _ s (Nat.sub_le _ _), hi]
  simp

theorem parseLoop_ne_badRead (env : Env) (argv : List String) :
    ∀ (fuel : Nat) (s : PState), parseLoop env argv fuel s ≠ .badRead := by
  intro fuel
  induction fuel with
  | zero =>
    intro s
    simp only [parseLoop]
    split_ifs <;> simp
  | succ n ih =>
    intro s
    simp only [parseLoop]
    split_ifs with hi
    · obtain ⟨it, k, _, _, hstep, _⟩ := step_spec env argv s hi
      rw [hstep]
      cases happ : applyItem env s it with
      | next s1 => exact ih s1
      | usage v => simp
      | fail m => simp
      | badRead => exact absurd happ (applyItem_ne_badRead env s it)
      | noFuel => exact absurd happ (applyItem_ne_noFuel env s it)
    · simp

theorem runItems_fail (env : Env) : ∀ (its : List Item) (s : PState) (m : List String),
    runItems env its s = .fail m → m = msgThreads ∨ m = msgFps := by
  intro its
  induction its with
  | nil => intro s m h; simp [runItems] at h
  | cons it rest ih =>
    intro s m h
    cases happ : applyItem env s it with
    | next s1 =>
      rw [runItems_cons_next env it rest s s1 happ] at h
      exact ih s1 m h
    | usage v => simp [runItems, happ] at h
    | badRead => simp [runItems, happ] at h
    | noFuel => simp [runItems, happ] at h
    | fail m1 =>
      simp [runItems, happ] at h
      subst h
      cases it with
      | opt f v =>
        cases f <;> simp only [applyItem] at happ
        · split_ifs at happ; simp at happ; exact Or.inl happ.symm
        · split_ifs at happ; simp at happ; exact Or.inr happ.symm
        · simp at happ
      | help => simp [applyItem] at happ
      | dangling f => simp [applyItem] at happ
      | pos a => simp [applyItem] at happ

theorem usageLine_head (argv0 : String) : (usageLine argv0).data.head? = some 'u' := by
  simp [usageLine, String.data_append]

/-- No usage message is the frame-order diagnostic. -/
theorem usageMessage_ne_msgFrames (env : Env) (argv0 : String) (verbose : Bool) :
    usageMessage env argv0 verbose ≠ msgFrames := by
  intro h
  have h1 : usageLine argv0 =
      "Frame number of first frame is greater than frame number of last frame." := by
    have := congrArg List.head? h
    simpa [usageMessage, msgFrames] using this
  have h2 := usageLine_head argv0
  rw [h1] at h2
  revert h2
  decide

/-- The loop behind a value-taking flag and its value, as a run of the loop
from the first token after the pair. -/
theorem parseLoop_behind_pair (env : Env) (argv0 : String) (front : List String) (a v : String)
    (post : List String) (s1 : PState) (hi : s1.i = front.length + 1 + 2) :
    parseLoop env (argv0 :: (front ++ a :: v :: post))
        (argv0 :: (front ++ a :: v :: post)).length s1 =
      runItems env (items post) s1 := by
  rw [parseLoop_eq_runItems env _ _ s1 (Nat.sub_le _ _), hi]
  simp

theorem positionalsOf_pair (front : List String) (a v : String) (post : List String)
    (f : Flag) (hf : flagOf a = some f)
    (hfront : ∀ g, Item.dangling g ∉ items front) :
    positionalsOf (front ++ a :: v :: post) = positionalsOf front ++ positionalsOf post := by
  unfold positionalsOf
  have : items (front ++ a :: v :: post) = items front ++ items (a :: v :: post) :=
    itemsAux_append front none _ hfront
  rw [this, items_flag a v post f hf]
  simp [itemPositionals, List.filterMap_append, List.filterMap_cons]

/-! ## Where the loop stops -/

/-- A pass that does not run to the end stops at one item, after the items
before it were passed without error. -/
theorem runItems_stop (env : Env) : ∀ (its : List Item) (s : PState) (r : Parsed),
    runItems env its s = r → (∀ s1, r ≠ .next s1) →
      ∃ its1 it its2 s1, its = its1 ++ it :: its2 ∧ runItems env its1 s = .next s1 ∧
        applyItem env s1 it = r := by
  intro its
  induction its with
  | nil =>
    intro s r h hr
    simp [runItems] at h
    exact absurd h.symm (hr s)
  | cons it rest ih =>
    intro s r h hr
    cases happ : applyItem env s it with
    | next s0 =>
      rw [runItems_cons_next env it rest s s0 happ] at h
      obtain ⟨its1, it1, its2, s1, h1, h2, h3⟩ := ih s0 r h hr
      refine ⟨it :: its1, it1, its2, s1, by rw [h1]; rfl, ?_, h3⟩
      rw [runItems_cons_next env it its1 s s0 happ]
      exact h2
    | usage v =>
      refine ⟨[], it, rest, s, rfl, rfl, ?_⟩
      simp [runItems, happ] at h
      rw [happ, h]
    | fail m =>
      refine ⟨[], it, rest, s, rfl, rfl, ?_⟩
      simp [runItems, happ] at h
      rw [happ, h]
    | badRead => exact absurd happ (applyItem_ne_badRead env s it)
    | noFuel => exact absurd happ (applyItem_ne_noFuel env s it)

/-- A cut in the items is a cut in the tokens. -/
theorem items_split : ∀ (its1 : List Item) (toks : List String) (it : Item)
    (its2 : List Item), items toks = its1 ++ it :: its2 →
      ∃ front back, toks = front ++ back ∧ items front = its1 ∧ items back = it :: its2 := by
  intro its1
  induction its1 with
  | nil => intro toks it its2 h; exact ⟨[], toks, rfl, rfl, h⟩
  | cons x xs ih =>
    intro toks it its2 h
    cases toks with
    | nil => simp [items_nil] at h
    | cons a rest =>
      cases hfl : flagOf a with
      | some f =>
        cases rest with
        | nil =>
          rw [items_flag_last a f hfl] at h
          simp at h
        | cons v rest1 =>
          rw [items_flag a v rest1 f hfl] at h
          simp only [List.cons_append, List.cons.injEq] at h
          obtain ⟨front, back, h1, h2, h3⟩ := ih rest1 it its2 h.2
          refine ⟨a :: v :: front, back, by rw [h1]; rfl, ?_, h3⟩
          rw [items_flag a v front f hfl, h2, h.1]
      | none =>
        by_cases hh : a = "-h"
        · subst hh
          rw [items_help] at h
          simp only [List.cons_append, List.cons.injEq] at h
          obtain ⟨front, back, h1, h2, h3⟩ := ih rest it its2 h.2
          refine ⟨"-h" :: front, back, by rw [h1]; rfl, ?_, h3⟩
          rw [items_help, h2, h.1]
        · rw [items_pos a rest hfl hh] at h
          simp only [List.cons_append, List.cons.injEq] at h
          obtain ⟨front, back, h1, h2, h3⟩ := ih rest it its2 h.2
          refine ⟨a :: front, back, by rw [h1]; rfl, ?_, h3⟩
          rw [items_pos a front hfl hh, h2, h.1]

theorem items_head_help (back : List String) (its2 : List Item)
    (h : items back = Item.help :: its2) : ∃ post, back = "-h" :: post := by
  cases back with
  | nil => simp [items_nil] at h
  | cons a rest =>
    cases hfl : flagOf a with
    | some f =>
      cases rest with
      | nil => rw [items_flag_last a f hfl] at h; simp at h
      | cons v rest1 => rw [items_flag a v rest1 f hfl] at h; simp at h
    | none =>
      by_cases hh : a = "-h"
      · exact ⟨rest, by rw [hh]⟩
      · rw [items_pos a rest hfl hh] at h; simp at h

theorem items_head_dangling (back : List String) (f : Flag) (its2 : List Item)
    (h : items back = Item.dangling f :: its2) : ∃ a, back = [a] ∧ flagOf a = some f := by
  cases back with
  | nil => simp [items_nil] at h
  | cons a rest =>
    cases hfl : flagOf a with
    | some g =>
      cases rest with
      | nil =>
        rw [items_flag_last a g hfl] at h
        simp at h
        exact ⟨a, rfl, by rw [hfl, h.1]⟩
      | cons v rest1 => rw [items_flag a v rest1 g hfl] at h; simp at h
    | none =>
      by_cases hh : a = "-h"
      · subst hh; rw [items_help] at h; simp at h
      · rw [items_pos a rest hfl hh] at h; simp at h

theorem items_head_opt (back : List String) (f : Flag) (v : String) (its2 : List Item)
    (h : items back = Item.opt f v :: its2) :
    ∃ a post, back = a :: v :: post ∧ flagOf a = some f := by
  cases back with
  | nil => simp [items_nil] at h
  | cons a rest =>
    cases hfl : flagOf a with
    | some g =>
      cases rest with
      | nil => rw [items_flag_last a g hfl] at h; simp at h
      | cons w rest1 =>
        rw [items_flag a w rest1 g hfl] at h
        simp at h
        exact ⟨a, rest1, by rw [h.1.2], by rw [hfl, h.1.1]⟩
    | none =>
      by_cases hh : a = "-h"
      · subst hh; rw [items_help] at h; simp at h
      · rw [items_pos a rest hfl hh] at h; simp at h

/-- The tokens at which a loop that leaves `main` stopped: the tokens before
parse without error, and the loop body fails at the item that follows. -/
theorem parseArgs_stop (env : Env) (argv0 : String) (rest : List String) (r : Parsed)
    (h : parseArgs env (argv0 :: rest) = r) (hr : ∀ s1, r ≠ .next s1) :
    ∃ front back it its2 s, rest = front ++ back ∧ parseArgs env (argv0 :: front) = .next s ∧
      items back = it :: its2 ∧ applyItem env s it = r := by
  rw [parseArgs_cons] at h
  obtain ⟨its1, it, its2, s, h1, h2, h3⟩ := runItems_stop env (items rest) initState r h hr
  obtain ⟨front, back, g1, g2, g3⟩ := items_split its1 rest it its2 h1
  refine ⟨front, back, it, its2, s, g1, ?_, g3, h3⟩
  rw [parseArgs_cons, g2]
  exact h2

/-- The long usage comes from a `-h` in flag position. -/
theorem parseArgs_usage_true_inv (env : Env) (argv0 : String) (rest : List String)
    (h : parseArgs env (argv0 :: rest) = .usage true) :
    ∃ front post s, rest = front ++ "-h" :: post ∧
      parseArgs env (argv0 :: front) = .next s := by
  obtain ⟨front, back, it, its2, s, h1, h2, h3, h4⟩ :=
    parseArgs_stop env argv0 rest _ h (by simp)
  cases it with
  | help =>
    obtain ⟨post, hb⟩ := items_head_help back its2 h3
    exact ⟨front, post, s, by rw [h1, hb], h2⟩
  | opt f v =>
    cases f <;> simp only [applyItem] at h4
    · split_ifs at h4
    · split_ifs at h4
    · simp at h4
  | pos a => simp [applyItem] at h4
  | dangling f => simp [applyItem] at h4

/-- The short usage inside the loop comes from a value-taking flag that is
the last token. -/
theorem parseArgs_usage_false_inv (env : Env) (argv0 : String) (rest : List String)
    (h : parseArgs env (argv0 :: rest) = .usage false) :
    ∃ front a s, rest = front ++ [a] ∧ (a = "-t" ∨ a = "-f" ∨ a = "-C") ∧
      parseArgs env (argv0 :: front) = .next s := by
  obtain ⟨front, back, it, its2, s, h1, h2, h3, h4⟩ :=
    parseArgs_stop env argv0 rest _ h (by simp)
  cases it with
  | dangling f =>
    obtain ⟨a, hb, hf⟩ := items_head_dangling back f its2 h3
    refine ⟨front, a, s, by rw [h1, hb], ?_, h2⟩
    rcases flagOf_some a f hf with ⟨e, _⟩ | ⟨e, _⟩ | ⟨e, _⟩
    · exact Or.inl e
    · exact Or.inr (Or.inl e)
    · exact Or.inr (Or.inr e)
  | opt f v =>
    cases f <;> simp only [applyItem] at h4
    · split_ifs at h4
    · split_ifs at h4
    · simp at h4
  | pos a => simp [applyItem] at h4
  | help => simp [applyItem] at h4

/-- A diagnostic inside the loop comes from a `-t` with a negative value or
from a `-f` with a value out of range. -/
theorem parseArgs_fail_inv (env : Env) (argv0 : String) (rest : List String)
    (m : List String) (h : parseArgs env (argv0 :: rest) = .fail m) :
    (∃ front v post s, rest = front ++ "-t" :: v :: post ∧
        parseArgs env (argv0 :: front) = .next s ∧ toInt (strtol v) < 0 ∧ m = msgThreads) ∨
    (∃ front v post s, rest = front ++ "-f" :: v :: post ∧
        parseArgs env (argv0 :: front) = .next s ∧
        (CFloat.lt (env.strtof v) (CFloat.ofInt 1) = true ∨
          CFloat.gt (env.strtof v) (CFloat.ofInt 1000) = true) ∧ m = msgFps) := by
  obtain ⟨front, back, it, its2, s, h1, h2, h3, h4⟩ :=
    parseArgs_stop env argv0 rest _ h (by simp)
  cases it with
  | opt f v =>
    obtain ⟨a, post, hb, hf⟩ := items_head_opt back f v its2 h3
    cases f <;> simp only [applyItem] at h4
    · split_ifs at h4 with hn
      simp at h4
      have ha : a = "-t" := by
        rcases flagOf_some a _ hf with ⟨e, _⟩ | ⟨_, e⟩ | ⟨_, e⟩
        · exact e
        · exact absurd e (by simp)
        · exact absurd e (by simp)
      exact Or.inl ⟨front, v, post, s, by rw [h1, hb, ha], h2, hn, h4.symm⟩
    · split_ifs at h4 with hn
      simp at h4
      have ha : a = "-f" := by
        rcases flagOf_some a _ hf with ⟨_, e⟩ | ⟨e, _⟩ | ⟨_, e⟩
        · exact absurd e (by simp)
        · exact e
        · exact absurd e (by simp)
      refine Or.inr ⟨front, v, post, s, by rw [h1, hb, ha], h2, ?_, h4.symm⟩
      simpa using hn
    · simp at h4
  | help => simp [applyItem] at h4
  | pos a => simp [applyItem] at h4
  | dangling f => simp [applyItem] at h4

/-! ## Theorems -/

/-- C1. For every argument vector (program name and any tokens), every answer
of the threading check and every behaviour of `playExr` (return or
exception), `main` ends the process with exit status 0 or 1, and the status
is 0 exactly when parsing and validation succeeded, threads are supported
and `playExr` returned without an exception. -/
theorem exit_code_contract (env : Env) (argv0 : String) (rest : List String) :
    ∃ r, main env (argv0 :: rest) = .exited r ∧ (r.status = 0 ∨ r.status = 1) ∧
      (r.status = 0 ↔
        ∃ s, Validated env (argv0 :: rest) s ∧ env.supportsThreads = true ∧
          env.playExr (playArgs s) = none) := by
  cases rest with
  | nil =>
    refine ⟨_, main_nil env argv0, Or.inr rfl, ?_⟩
    constructor
    · intro h; simp at h
    · rintro ⟨s, ⟨h2, _⟩, _⟩
      simp at h2
  | cons a rest =>
    cases hp : parseArgs env (argv0 :: a :: rest) with
    | badRead => exact absurd hp (parseArgs_ne_badRead env _ _)
    | noFuel => exact absurd hp (parseArgs_ne_noFuel env _ _)
    | usage v =>
      refine ⟨_, main_of_usage env argv0 _ v hp, Or.inr rfl, ?_⟩
      constructor
      · intro h; simp at h
      · rintro ⟨s, ⟨_, h2, _⟩, _⟩
        rw [hp] at h2
        exact absurd h2 (by simp)
    | fail m =>
      refine ⟨_, main_of_fail env argv0 _ m hp, Or.inr rfl, ?_⟩
      constructor
      · intro h; simp at h
      · rintro ⟨s, ⟨_, h2, _⟩, _⟩
        rw [hp] at h2
        exact absurd h2 (by simp)
    | next s =>
      have hm := main_of_next env argv0 (a :: rest) s (by simp) hp
      have key : ∀ s1, Validated env (argv0 :: a :: rest) s1 → s1 = s := by
        rintro s1 ⟨_, h2, _⟩
        rw [hp] at h2
        exact (Parsed.next.inj h2).symm
      by_cases hj : s.j ≠ 1 ∧ s.j ≠ 3
      · refine ⟨⟨usageMessage env argv0 false, 1, false, []⟩, ?_, Or.inr rfl, ?_⟩
        · rw [hm]; simp [finish, hj, usageExit_cons]
        · constructor
          · intro h; simp at h
          · rintro ⟨s1, hv, _⟩
            have := key s1 hv
            subst this
            obtain ⟨_, _, h3, _⟩ := hv
            omega
      · by_cases hf : s.firstFrame > s.lastFrame
        · refine ⟨⟨msgFrames, 1, false, []⟩, ?_, Or.inr rfl, ?_⟩
          · rw [hm]; simp [finish, hj, hf, failExit]
          · constructor
            · intro h; simp at h
            · rintro ⟨s1, hv, _⟩
              have := key s1 hv
              subst this
              obtain ⟨_, _, _, h4⟩ := hv
              omega
        · have hval : Validated env (argv0 :: a :: rest) s :=
            ⟨by simp, hp, by omega, by omega⟩
          cases ht : env.supportsThreads with
          | false =>
            refine ⟨⟨msgNoThreads, 1, false, []⟩, ?_, Or.inr rfl, ?_⟩
            · rw [hm]; simp [finish, hj, hf, ht, failExit]
            · constructor
              · intro h; simp at h
              · rintro ⟨s1, _, h5, _⟩
                exact absurd h5 (by simp)
          | true =>
            cases hplay : env.playExr (playArgs s) with
            | none =>
              refine ⟨⟨[], 0, true, [playArgs s]⟩, ?_, Or.inl rfl, ?_⟩
              · rw [hm]; simp [finish, hj, hf, ht, play, hplay]
              · constructor
                · intro _; exact ⟨s, hval, rfl, hplay⟩
                · intro _; rfl
            | some what =>
              refine ⟨⟨[what], 1, true, [playArgs s]⟩, ?_, Or.inr rfl, ?_⟩
              · rw [hm]; simp [finish, hj, hf, ht, play, hplay]
              · constructor
                · intro h; simp at h
                · rintro ⟨s1, hv, _, h6⟩
                  have := key s1 hv
                  subst this
                  rw [hplay] at h6
                  exact absurd h6 (by simp)

/-- C2 (counterexample). With no token after the program name the flags parse
without error and there are 0 positional tokens, yet `main` prints the long
help, not the usage line alone. -/
theorem positional_count_zero_long_help :
    parseArgs sampleEnv ["playexr"] = .next initState ∧
    (positionalsOf []).length = 0 ∧
    main sampleEnv ["playexr"] =
      .exited { err := usageLine "playexr" :: helpText "playexr" true, status := 1,
                atexitHook := false, calls := [] } ∧
    main sampleEnv ["playexr"] ≠
      .exited { err := [usageLine "playexr"], status := 1, atexitHook := false, calls := [] } := by
  decide

/-- C2 (amended). When the loop ends without a flag error, `j` is the number
of positional tokens; if at least one token follows the program name and that
number is neither 1 nor 3, `main` prints the usage line alone, exits with
status 1 and does not call `playExr`; with no token after the program name it
prints the usage line followed by the long help and exits with status 1; and
`playExr` is called only when the number is 1 or 3. -/
theorem positional_count_rule (env : Env) (argv0 : String) (rest : List String) (s : PState)
    (h : parseArgs env (argv0 :: rest) = .next s) :
    s.j = (positionalsOf rest).length ∧
    (rest ≠ [] → (positionalsOf rest).length ≠ 1 → (positionalsOf rest).length ≠ 3 →
      main env (argv0 :: rest) =
        .exited { err := [usageLine argv0], status := 1, atexitHook := false, calls := [] }) ∧
    (rest = [] →
      main env (argv0 :: rest) =
        .exited { err := usageLine argv0 :: helpText argv0 env.haveCtl, status := 1,
                  atexitHook := false, calls := [] }) ∧
    (∀ r, main env (argv0 :: rest) = .exited r → r.calls ≠ [] →
      (positionalsOf rest).length = 1 ∨ (positionalsOf rest).length = 3) := by
  have hj := (parseArgs_positionals env argv0 rest s h).1
  refine ⟨hj, ?_, ?_, ?_⟩
  · intro hne h1 h3
    rw [main_of_next env argv0 rest s hne h]
    have : s.j ≠ 1 ∧ s.j ≠ 3 := by rw [hj]; exact ⟨h1, h3⟩
    simp [finish, this, usageExit_cons, usageMessage]
  · intro hnil
    subst hnil
    rw [main_nil]
    simp [usageMessage]
  · intro r hr hc
    obtain ⟨a, ha⟩ := List.exists_mem_of_ne_nil _ hc
    obtain ⟨s1, ⟨_, hp, hj1, _⟩, _, _⟩ := main_calls env argv0 rest r a hr ha
    rw [h] at hp
    have := Parsed.next.inj hp
    subst this
    rw [← hj]
    exact hj1

/-- C2 (witness of the amended rule): two positional tokens give the usage
line alone. -/
theorem positional_count_rule_witness :
    parseArgs sampleEnv ["playexr", "img.%.exr", "7"] =
      .next { initState with i := 3, j := 2, fileNameTemplate := some "img.%.exr",
                             firstFrame := 7, templateWrites := 1 } ∧
    main sampleEnv ["playexr", "img.%.exr", "7"] =
      .exited { err := [usageLine "playexr"], status := 1, atexitHook := false, calls := [] } :=
  ⟨by decide,
   (positional_count_rule sampleEnv "playexr" ["img.%.exr", "7"]
      { initState with i := 3, j := 2, fileNameTemplate := some "img.%.exr", firstFrame := 7,
                       templateWrites := 1 }
      (by decide)).2.1 (by decide) (by decide) (by decide)⟩

/-- C3 (counterexample). Four positional tokens without any flag: the loop
finishes without error, and `main` prints the usage line and exits with
status 1 without calling `playExr`; the vector is not accepted. -/
theorem extra_positional_not_accepted :
    positionalsOf ["img.%.exr", "1", "5", "9"] = ["img.%.exr", "1", "5", "9"] ∧
    parseArgs sampleEnv ["playexr", "img.%.exr", "1", "5", "9"] =
      .next { initState with i := 5, j := 4, fileNameTemplate := some "img.%.exr",
                             firstFrame := 1, lastFrame := 5, templateWrites := 1 } ∧
    main sampleEnv ["playexr", "img.%.exr", "1", "5", "9"] =
      .exited { err := [usageLine "playexr"], status := 1, atexitHook := false, calls := [] } := by
  decide

/-- C3 (amended). When the loop ends without a flag error and there are more
than three positional tokens, the tokens after the third are not assigned to
anything: the template and the two frame numbers at the end of the loop are
those of the first three positional tokens; but the vector is rejected:
`main` prints the usage line alone, exits with status 1 and does not call
`playExr`. -/
theorem extra_positionals_rule (env : Env) (argv0 : String) (rest : List String) (s : PState)
    (p0 p1 p2 p3 : String) (more : List String)
    (h : parseArgs env (argv0 :: rest) = .next s)
    (hp : positionalsOf rest = p0 :: p1 :: p2 :: p3 :: more) :
    s.fileNameTemplate = some p0 ∧ s.firstFrame = toInt (strtol p1) ∧
    s.lastFrame = toInt (strtol p2) ∧
    main env (argv0 :: rest) =
      .exited { err := [usageLine argv0], status := 1, atexitHook := false, calls := [] } := by
  obtain ⟨hj, ht, hf, hl, _⟩ := parseArgs_positionals env argv0 rest s h
  rw [hp] at hj ht hf hl
  have hne : rest ≠ [] := by
    intro hnil
    subst hnil
    simp [positionalsOf, items, itemsAux, itemPositionals] at hp
  refine ⟨by simpa using ht, by simpa [frameArg] using hf, by simpa [frameArg] using hl, ?_⟩
  rw [main_of_next env argv0 rest s hne h]
  have : s.j ≠ 1 ∧ s.j ≠ 3 := by
    rw [hj]
    simp only [List.length_cons]
    omega
  simp [finish, this, usageExit_cons, usageMessage]

/-- C3 (witness of the amended rule): a fourth positional token after
`img.%.exr 1 5`, with a flag in between. -/
theorem extra_positionals_rule_witness :
    parseArgs sampleEnv ["playexr", "img.%.exr", "1", "-t", "2", "5", "9"] =
      .next { initState with i := 7, j := 4, fileNameTemplate := some "img.%.exr",
                             firstFrame := 1, lastFrame := 5, numThreads := 2,
                             templateWrites := 1 } ∧
    positionalsOf ["img.%.exr", "1", "-t", "2", "5", "9"] = ["img.%.exr", "1", "5", "9"] ∧
    main sampleEnv ["playexr", "img.%.exr", "1", "-t", "2", "5", "9"] =
      .exited { err := [usageLine "playexr"], status := 1, atexitHook := false, calls := [] } :=
  ⟨by decide, by decide,
   (extra_positionals_rule sampleEnv "playexr" ["img.%.exr", "1", "-t", "2", "5", "9"]
      { initState with i := 7, j := 4, fileNameTemplate := some "img.%.exr",
                       firstFrame := 1, lastFrame := 5, numThreads := 2, templateWrites := 1 }
      "img.%.exr" "1" "5" "9" [] (by decide) (by decide)).2.2.2⟩

/-- C4 (the code at a failing input). The value token `-4294967295` denotes a
negative integer, which `strtol` returns unchanged; stored in the `int`
variable `numThreads` it becomes 1, the check `numThreads < 0` does not
fire, and `playExr` is called with a thread count of 1. -/
theorem negative_thread_count_wraps :
    strtol "-4294967295" = -4294967295 ∧
    main sampleEnv ["playexr", "-t", "-4294967295", "img.%.exr"] =
      .exited { err := [], status := 0, atexitHook := true,
                calls := [{ fileNameTemplate := some "img.%.exr", firstFrame := 1,
                            lastFrame := 1, numThreads := 1, fps := CFloat.fin (-1),
                            transformNames := [] }] } := by
  decide

/-- The check at `-t n` on values that fit an `int`: after tokens that parse
without error, a value whose conversion to `int` is negative, in particular
every value that `strtol` reads as an integer in `[-2^31, -1]`, ends `main`
with the thread-count diagnostic alone, status 1 and no call of `playExr`. -/
theorem thread_flag_negative_int (env : Env) (argv0 : String) (front : List String)
    (v : String) (post : List String) (s : PState)
    (h : parseArgs env (argv0 :: front) = .next s) :
    (toInt (strtol v) < 0 →
      main env (argv0 :: (front ++ "-t" :: v :: post)) =
        .exited { err := msgThreads, status := 1, atexitHook := false, calls := [] }) ∧
    (INT_MIN ≤ strtol v → strtol v < 0 → toInt (strtol v) < 0) := by
  constructor
  · intro hneg
    have hp := parseArgs_at_flag env argv0 front "-t" v post s Flag.threads h rfl
    have : parseArgs env (argv0 :: (front ++ "-t" :: v :: post)) = .fail msgThreads := by
      rw [hp]
      simp [runItems, applyItem, hneg]
    rw [main_of_fail env argv0 _ msgThreads this]
    rfl
  · intro h1 h2
    rw [toInt_of_range _ h1 (by unfold INT_MAX; omega)]
    exact h2

/-- The frame-order check on the values stored in the `int` variables.  For
an argument vector whose loop ends without a flag error and whose
positional tokens are a template and two frame-number tokens: the variables
`firstFrame` and `lastFrame` hold the two values read from the tokens (the
`strtol` results as stored in `int`, which are the `strtol` results
themselves when these fit an `int`); if first > last, `main` prints the
frame-order diagnostic alone, exits with status 1 and does not call
`playExr`; if first ≤ last, the frame-order check lets the vector pass and
`main` goes on to the threading check and the call of `playExr`. -/
theorem frame_order_rule (env : Env) (argv0 : String) (rest : List String) (s : PState)
    (t f l : String)
    (h : parseArgs env (argv0 :: rest) = .next s) (hp : positionalsOf rest = [t, f, l]) :
    s.firstFrame = toInt (strtol f) ∧ s.lastFrame = toInt (strtol l) ∧
    (INT_MIN ≤ strtol f → strtol f ≤ INT_MAX → s.firstFrame = strtol f) ∧
    (INT_MIN ≤ strtol l → strtol l ≤ INT_MAX → s.lastFrame = strtol l) ∧
    (s.firstFrame > s.lastFrame →
      main env (argv0 :: rest) =
        .exited { err := msgFrames, status := 1, atexitHook := false, calls := [] }) ∧
    (s.firstFrame ≤ s.lastFrame →
      main env (argv0 :: rest) =
        if env.supportsThreads = true then play env s else failExit msgNoThreads) := by
  obtain ⟨hj, _, hf, hl, _⟩ := parseArgs_positionals env argv0 rest s h
  rw [hp] at hj hf hl
  have hf1 : s.firstFrame = toInt (strtol f) := by simpa [frameArg] using hf
  have hl1 : s.lastFrame = toInt (strtol l) := by simpa [frameArg] using hl
  have hne : rest ≠ [] := by
    intro hnil
    subst hnil
    simp [positionalsOf, items, itemsAux, itemPositionals] at hp
  have hj3 : s.j = 3 := by simpa using hj
  refine ⟨hf1, hl1, ?_, ?_, ?_, ?_⟩
  · intro h1 h2; rw [hf1, toInt_of_range _ h1 h2]
  · intro h1 h2; rw [hl1, toInt_of_range _ h1 h2]
  · intro hgt
    rw [main_of_next env argv0 rest s hne h]
    simp [finish, hj3, hgt, failExit]
  · intro hle
    rw [main_of_next env argv0 rest s hne h]
    have : ¬ s.firstFrame > s.lastFrame := by omega
    cases ht : env.supportsThreads <;> simp [finish, hj3, this, ht]

/-- An instance of `frame_order_rule`: `img.%.exr 5 1` is rejected by the
frame-order check. -/
theorem frame_order_rule_witness :
    parseArgs sampleEnv ["playexr", "img.%.exr", "5", "1"] =
      .next { initState with i := 4, j := 3, fileNameTemplate := some "img.%.exr",
                             firstFrame := 5, lastFrame := 1, templateWrites := 1 } ∧
    positionalsOf ["img.%.exr", "5", "1"] = ["img.%.exr", "5", "1"] ∧
    main sampleEnv ["playexr", "img.%.exr", "5", "1"] =
      .exited { err := msgFrames, status := 1, atexitHook := false, calls := [] } :=
  ⟨by decide, by decide,
   (frame_order_rule sampleEnv "playexr" ["img.%.exr", "5", "1"]
      { initState with i := 4, j := 3, fileNameTemplate := some "img.%.exr",
                       firstFrame := 5, lastFrame := 1, templateWrites := 1 }
      "img.%.exr" "5" "1" (by decide) (by decide)).2.2.2.2.1 (by decide)⟩

/-- C5 (the code at failing inputs). The tokens `4294967297` and `2` denote
integers with first > last, which `strtol` returns unchanged; stored in the
`int` variables they are 1 and 2, the frame-order check does not fire and
`playExr` is called with frames 1 to 2.  Conversely the tokens `1` and
`4294967296` denote integers with first ≤ last; stored they are 1 and 0,
and `main` prints the frame-order diagnostic. -/
theorem inverted_frame_range_wraps :
    strtol "4294967297" = 4294967297 ∧ strtol "2" = 2 ∧
    main sampleEnv ["playexr", "img.%.exr", "4294967297", "2"] =
      .exited { err := [], status := 0, atexitHook := true,
                calls := [{ fileNameTemplate := some "img.%.exr", firstFrame := 1,
                            lastFrame := 2, numThreads := 0, fps := CFloat.fin (-1),
                            transformNames := [] }] } ∧
    strtol "1" = 1 ∧ strtol "4294967296" = 4294967296 ∧
    main sampleEnv ["playexr", "img.%.exr", "1", "4294967296"] =
      .exited { err := msgFrames, status := 1, atexitHook := false, calls := [] } := by
  decide

/-- C6. After tokens that parse without error, at a pair `-f n` where `n` is
the value `strtof` reads from the value token: if `n < 1` or `n > 1000`,
`main` prints the playback-speed diagnostic alone, exits with status 1 and
does not call `playExr`, whatever follows; and if `1 ≤ n ≤ 1000` (bounds
included) the check lets the flag pass: the loop goes on behind the pair
with `fps = n`. -/
theorem frame_rate_range (env : Env) (argv0 : String) (front : List String) (v : String)
    (post : List String) (s : PState) (h : parseArgs env (argv0 :: front) = .next s) :
    (CFloat.lt (env.strtof v) (CFloat.ofInt 1) = true ∨
        CFloat.gt (env.strtof v) (CFloat.ofInt 1000) = true →
      main env (argv0 :: (front ++ "-f" :: v :: post)) =
        .exited { err := msgFps, status := 1, atexitHook := false, calls := [] }) ∧
    (CFloat.Within 1 1000 (env.strtof v) →
      parseArgs env (argv0 :: (front ++ "-f" :: v :: post)) =
          runItems env (items post) { s with fps := env.strtof v, i := s.i + 2 } ∧
      parseArgs env (argv0 :: (front ++ ["-f", v])) =
          .next { s with fps := env.strtof v, i := s.i + 2 }) := by
  constructor
  · intro hout
    have hp := parseArgs_at_flag env argv0 front "-f" v post s Flag.rate h rfl
    have hb : (CFloat.lt (env.strtof v) (CFloat.ofInt 1) ||
        CFloat.gt (env.strtof v) (CFloat.ofInt 1000)) = true := by
      rcases hout with h1 | h1 <;> simp [h1]
    have : parseArgs env (argv0 :: (front ++ "-f" :: v :: post)) = .fail msgFps := by
      rw [hp]
      simp only [runItems, applyItem, hb, if_true]
    rw [main_of_fail env argv0 _ msgFps this]
    rfl
  · intro hin
    have hb : ¬ ((CFloat.lt (env.strtof v) (CFloat.ofInt 1) ||
        CFloat.gt (env.strtof v) (CFloat.ofInt 1000)) = true) := by
      cases hv : env.strtof v with
      | nan => rw [hv] at hin; exact absurd hin (by simp [CFloat.Within])
      | negInf => rw [hv] at hin; exact absurd hin (by simp [CFloat.Within])
      | posInf => rw [hv] at hin; exact absurd hin (by simp [CFloat.Within])
      | fin q =>
        rw [hv] at hin
        obtain ⟨h1, h2⟩ := hin
        simp [CFloat.lt, CFloat.gt, CFloat.ofInt, h1, h2]
    constructor
    · rw [parseArgs_at_flag env argv0 front "-f" v post s Flag.rate h rfl]
      simp [runItems, applyItem, hb]
    · rw [parseArgs_at_flag env argv0 front "-f" v [] s Flag.rate h rfl]
      simp [runItems, applyItem, hb, items_nil]

/-- C6 (witness): `-f 1001` after a template is rejected. -/
theorem frame_rate_range_witness :
    parseArgs sampleEnv ["playexr", "img.%.exr"] =
      .next { initState with i := 2, j := 1, fileNameTemplate := some "img.%.exr",
                             templateWrites := 1 } ∧
    main sampleEnv ["playexr", "img.%.exr", "-f", "1001"] =
      .exited { err := msgFps, status := 1, atexitHook := false, calls := [] } :=
  ⟨by decide,
   (frame_rate_range sampleEnv "playexr" ["img.%.exr"] "1001" []
      { initState with i := 2, j := 1, fileNameTemplate := some "img.%.exr",
                       templateWrites := 1 }
      (by decide)).1 (Or.inr (by decide))⟩

/-- C7 (the code at a failing input). With a C library whose `strtof` reads
the token `nan` as a NaN, and with threads supported, the vector
`-f nan img.%.exr` passes the check `fps < 1 || fps > 1000`, and `playExr` is
called with a frame rate that is neither the initial -1 nor a value in
`[1, 1000]`. -/
theorem nan_frame_rate_reaches_playback (env : Env) (hnan : env.strtof "nan" = CFloat.nan)
    (ht : env.supportsThreads = true) :
    ∃ r, main env ["playexr", "-f", "nan", "img.%.exr"] = .exited r ∧
      r.calls = [{ fileNameTemplate := some "img.%.exr", firstFrame := 1, lastFrame := 1,
                   numThreads := 0, fps := CFloat.nan, transformNames := [] }] ∧
      ¬ (CFloat.nan = CFloat.fin (-1) ∨ CFloat.Within 1 1000 CFloat.nan) := by
  have hp : parseArgs env ["playexr", "-f", "nan", "img.%.exr"] =
      .next { initState with i := 4, j := 1, fileNameTemplate := some "img.%.exr",
                             fps := CFloat.nan, templateWrites := 1 } := by
    rw [parseArgs_cons]
    have hi : items ["-f", "nan", "img.%.exr"] =
        [Item.opt Flag.rate "nan", Item.pos "img.%.exr"] := by decide
    rw [hi]
    simp [runItems, applyItem, hnan, CFloat.lt, CFloat.gt, CFloat.ofInt, assignPositional,
      initState]
  obtain ⟨r, hr, hc, _⟩ := play_calls env
    { initState with i := 4, j := 1, fileNameTemplate := some "img.%.exr",
                     fps := CFloat.nan, templateWrites := 1 }
  refine ⟨r, ?_, ?_, by simp [CFloat.Within]⟩
  · rw [main_of_next env "playexr" _ _ (by simp) hp, ← hr]
    simp [finish, ht, initState]
  · rw [hc]
    rfl

/-- C7 (witness): the sample environment reads `nan` as a NaN. -/
theorem nan_frame_rate_reaches_playback_witness :
    sampleEnv.strtof "nan" = CFloat.nan ∧ sampleEnv.supportsThreads = true ∧
    ∃ r, main sampleEnv ["playexr", "-f", "nan", "img.%.exr"] = .exited r ∧
      r.calls = [{ fileNameTemplate := some "img.%.exr", firstFrame := 1, lastFrame := 1,
                   numThreads := 0, fps := CFloat.nan, transformNames := [] }] ∧
      ¬ (CFloat.nan = CFloat.fin (-1) ∨ CFloat.Within 1 1000 CFloat.nan) :=
  ⟨by decide, rfl, nan_frame_rate_reaches_playback sampleEnv (by decide) rfl⟩

/-- C8. Whenever `playExr` is called, the transform list it receives is the
list of the value tokens that follow the `-C` flags in flag position, in
command-line order: one element per `-C`, nothing else. -/
theorem transform_order (env : Env) (argv0 : String) (rest : List String) (r : Result)
    (a : PlayArgs) (h : main env (argv0 :: rest) = .exited r) (ha : a ∈ r.calls) :
    a.transformNames = transformsOf rest := by
  obtain ⟨s, ⟨_, hp, _, _⟩, _, hs⟩ := main_calls env argv0 rest r a h ha
  rw [parseArgs_cons] at hp
  have := runItems_transforms env (items rest) initState s hp
  subst hs
  simpa [playArgs, initState, transformsOf] using this

/-- C8 (witness): `-C a -C b img.%.exr` gives the transform list `[a, b]`. -/
theorem transform_order_witness :
    main sampleEnv ["playexr", "-C", "a", "-C", "b", "img.%.exr"] =
      .exited { err := [], status := 0, atexitHook := true,
                calls := [{ fileNameTemplate := some "img.%.exr", firstFrame := 1,
                            lastFrame := 1, numThreads := 0, fps := CFloat.fin (-1),
                            transformNames := ["a", "b"] }] } ∧
    transformsOf ["-C", "a", "-C", "b", "img.%.exr"] = ["a", "b"] ∧
    ["a", "b"] = transformsOf ["-C", "a", "-C", "b", "img.%.exr"] :=
  ⟨by decide, by decide,
   transform_order sampleEnv "playexr" ["-C", "a", "-C", "b", "img.%.exr"]
     { err := [], status := 0, atexitHook := true,
       calls := [{ fileNameTemplate := some "img.%.exr", firstFrame := 1,
                   lastFrame := 1, numThreads := 0, fps := CFloat.fin (-1),
                   transformNames := ["a", "b"] }] }
     { fileNameTemplate := some "img.%.exr", firstFrame := 1,
       lastFrame := 1, numThreads := 0, fps := CFloat.fin (-1),
       transformNames := ["a", "b"] }
     (by decide) (List.mem_singleton.2 rfl)⟩

/-- Pass-through on the values stored in the `int` variables.  For an
argument vector of exactly three tokens after the program name, none of them
a flag, whose frame numbers as stored satisfy first ≤ last, and with threads
supported: `playExr` is called exactly once, with the template, the two
stored frame numbers, a thread count of 0, a frame rate of -1 (not set) and
an empty transform list; the process ends after that call. -/
theorem pass_through_defaults (env : Env) (argv0 t f l : String)
    (ht : isPositional t = true) (hf : isPositional f = true) (hl : isPositional l = true)
    (hle : toInt (strtol f) ≤ toInt (strtol l)) (hthr : env.supportsThreads = true) :
    ∃ r, main env [argv0, t, f, l] = .exited r ∧
      r.calls = [{ fileNameTemplate := some t, firstFrame := toInt (strtol f),
                   lastFrame := toInt (strtol l), numThreads := 0, fps := CFloat.fin (-1),
                   transformNames := [] }] := by
  obtain ⟨ht1, ht2⟩ := (isPositional_iff t).1 ht
  obtain ⟨hf1, hf2⟩ := (isPositional_iff f).1 hf
  obtain ⟨hl1, hl2⟩ := (isPositional_iff l).1 hl
  have hi : items [t, f, l] = [Item.pos t, Item.pos f, Item.pos l] := by
    rw [items_pos t _ ht1 ht2, items_pos f _ hf1 hf2, items_pos l _ hl1 hl2, items_nil]
  have hp : parseArgs env [argv0, t, f, l] =
      .next { initState with i := 4, j := 3, fileNameTemplate := some t,
                             firstFrame := toInt (strtol f), lastFrame := toInt (strtol l),
                             templateWrites := 1 } := by
    rw [parseArgs_cons, hi]
    simp [runItems, applyItem, assignPositional, initState]
  obtain ⟨r, hr, hc, _⟩ := play_calls env
    { initState with i := 4, j := 3, fileNameTemplate := some t,
                     firstFrame := toInt (strtol f), lastFrame := toInt (strtol l),
                     templateWrites := 1 }
  refine ⟨r, ?_, ?_⟩
  · rw [main_of_next env argv0 _ _ (by simp) hp, ← hr]
    have : ¬ toInt (strtol f) > toInt (strtol l) := by omega
    simp [finish, hthr, this]
  · rw [hc]
    rfl

/-- An instance of `pass_through_defaults`: `img.%.exr 1 5`. -/
theorem pass_through_defaults_witness :
    toInt (strtol "1") = 1 ∧ toInt (strtol "5") = 5 ∧
    ∃ r, main sampleEnv ["playexr", "img.%.exr", "1", "5"] = .exited r ∧
      r.calls = [{ fileNameTemplate := some "img.%.exr", firstFrame := toInt (strtol "1"),
                   lastFrame := toInt (strtol "5"), numThreads := 0, fps := CFloat.fin (-1),
                   transformNames := [] }] :=
  ⟨by decide, by decide,
   pass_through_defaults sampleEnv "playexr" "img.%.exr" "1" "5" (by decide) (by decide)
     (by decide) (by decide) rfl⟩

/-- C9 (the code at failing inputs). `img.%.exr 1 4294967296` consists of
three positional tokens with first ≤ last, and threads are supported, yet
the last frame is stored as 0, `main` prints the frame-order diagnostic and
`playExr` is not called; and `img.%.exr 4294967297 4294967298` is passed to
`playExr` with the frames 1 and 2 instead of the frames on the command
line. -/
theorem pass_through_wraps :
    sampleEnv.supportsThreads = true ∧
    strtol "1" = 1 ∧ strtol "4294967296" = 4294967296 ∧
    positionalsOf ["img.%.exr", "1", "4294967296"] = ["img.%.exr", "1", "4294967296"] ∧
    main sampleEnv ["playexr", "img.%.exr", "1", "4294967296"] =
      .exited { err := msgFrames, status := 1, atexitHook := false, calls := [] } ∧
    strtol "4294967297" = 4294967297 ∧ strtol "4294967298" = 4294967298 ∧
    main sampleEnv ["playexr", "img.%.exr", "4294967297", "4294967298"] =
      .exited { err := [], status := 0, atexitHook := true,
                calls := [{ fileNameTemplate := some "img.%.exr", firstFrame := 1,
                            lastFrame := 2, numThreads := 0, fps := CFloat.fin (-1),
                            transformNames := [] }] } := by
  decide

/-- C10. For an argument vector whose loop ends without a flag error and
that has exactly one positional token, the frame variables keep their
initial values: first frame = 1 and last frame = 1, also in every call of
`playExr`. -/
theorem frame_defaults (env : Env) (argv0 : String) (rest : List String) (s : PState)
    (h : parseArgs env (argv0 :: rest) = .next s) (h1 : (positionalsOf rest).length = 1) :
    s.firstFrame = 1 ∧ s.lastFrame = 1 ∧
    ∀ r, main env (argv0 :: rest) = .exited r →
      ∀ a ∈ r.calls, a.firstFrame = 1 ∧ a.lastFrame = 1 := by
  obtain ⟨_, _, hf, hl, _⟩ := parseArgs_positionals env argv0 rest s h
  have e1 : frameArg (positionalsOf rest) 1 = 1 := by
    unfold frameArg
    rw [List.getElem?_eq_none (by omega)]
  have e2 : frameArg (positionalsOf rest) 2 = 1 := by
    unfold frameArg
    rw [List.getElem?_eq_none (by omega)]
  rw [e1] at hf
  rw [e2] at hl
  refine ⟨hf, hl, ?_⟩
  intro r hr a ha
  obtain ⟨s1, ⟨_, hp, _, _⟩, _, hs⟩ := main_calls env argv0 rest r a hr ha
  rw [h] at hp
  have := Parsed.next.inj hp
  subst this
  subst hs
  exact ⟨hf, hl⟩

/-- C10 (witness): a template between two flags. -/
theorem frame_defaults_witness :
    parseArgs sampleEnv ["playexr", "-t", "4", "img.%.exr", "-C", "x"] =
      .next { initState with i := 6, j := 1, fileNameTemplate := some "img.%.exr",
                             numThreads := 4, transformNames := ["x"], templateWrites := 1 } ∧
    (positionalsOf ["-t", "4", "img.%.exr", "-C", "x"]).length = 1 ∧
    ∀ r, main sampleEnv ["playexr", "-t", "4", "img.%.exr", "-C", "x"] = .exited r →
      ∀ a ∈ r.calls, a.firstFrame = 1 ∧ a.lastFrame = 1 :=
  ⟨by decide, by decide,
   (frame_defaults sampleEnv "playexr" ["-t", "4", "img.%.exr", "-C", "x"]
      { initState with i := 6, j := 1, fileNameTemplate := some "img.%.exr",
                       numThreads := 4, transformNames := ["x"], templateWrites := 1 }
      (by decide) (by decide)).2.2⟩

/-- C11 (counterexample). The vector `-t -1` has no positional token, and
`main` prints the thread-count diagnostic, which is not the usage message
(neither the short nor the long one). -/
theorem missing_template_flag_error :
    positionalsOf ["-t", "-1"] = [] ∧
    main sampleEnv ["playexr", "-t", "-1"] =
      .exited { err := msgThreads, status := 1, atexitHook := false, calls := [] } ∧
    msgThreads ≠ usageMessage sampleEnv "playexr" false ∧
    msgThreads ≠ usageMessage sampleEnv "playexr" true := by
  decide

/-- C11 (amended). For every argument vector without a positional token
(also the one without any token after the program name), `main` exits with
status 1, registers no exit hook and never calls `playExr`, and what it
prints is decided by where the loop stops, each time after tokens that
parse without error: the usage line followed by the long help (which is not
the usage line alone) when no token follows the program name or when the
loop reaches a `-h` in flag position; the usage line alone when the loop
reaches a `-t`, `-f` or `-C` that is the last token, or reaches the end of a
non-empty vector without error; the thread-count diagnostic when the loop
reaches a `-t` whose value is negative as an `int`; the playback-speed
diagnostic when the loop reaches a `-f` whose value is below 1 or above
1000. -/
theorem missing_template_rule (env : Env) (argv0 : String) (rest : List String)
    (h : positionalsOf rest = []) :
    usageLine argv0 :: helpText argv0 env.haveCtl ≠ [usageLine argv0] ∧
    ∃ r, main env (argv0 :: rest) = .exited r ∧ r.status = 1 ∧ r.calls = [] ∧
      r.atexitHook = false ∧
      ((rest = [] ∧ r.err = usageLine argv0 :: helpText argv0 env.haveCtl) ∨
       ((∃ front post s, rest = front ++ "-h" :: post ∧
            parseArgs env (argv0 :: front) = .next s) ∧
          r.err = usageLine argv0 :: helpText argv0 env.haveCtl) ∨
       ((∃ front a s, rest = front ++ [a] ∧ (a = "-t" ∨ a = "-f" ∨ a = "-C") ∧
            parseArgs env (argv0 :: front) = .next s) ∧
          r.err = [usageLine argv0]) ∨
       (rest ≠ [] ∧ (∃ s, parseArgs env (argv0 :: rest) = .next s) ∧
          r.err = [usageLine argv0]) ∨
       ((∃ front v post s, rest = front ++ "-t" :: v :: post ∧
            parseArgs env (argv0 :: front) = .next s ∧ toInt (strtol v) < 0) ∧
          r.err = msgThreads) ∨
       ((∃ front v post s, rest = front ++ "-f" :: v :: post ∧
            parseArgs env (argv0 :: front) = .next s ∧
            (CFloat.lt (env.strtof v) (CFloat.ofInt 1) = true ∨
              CFloat.gt (env.strtof v) (CFloat.ofInt 1000) = true)) ∧
          r.err = msgFps)) := by
  constructor
  · cases env.haveCtl <;> simp [helpText]
  cases hp : parseArgs env (argv0 :: rest) with
  | badRead => exact absurd hp (parseArgs_ne_badRead env _ _)
  | noFuel => exact absurd hp (parseArgs_ne_noFuel env _ _)
  | usage v =>
    cases v with
    | true =>
      obtain ⟨front, post, s, h1, h2⟩ := parseArgs_usage_true_inv env argv0 rest hp
      exact ⟨_, main_of_usage env argv0 rest true hp, rfl, rfl, rfl,
        Or.inr (Or.inl ⟨⟨front, post, s, h1, h2⟩, by simp [usageMessage]⟩)⟩
    | false =>
      obtain ⟨front, a, s, h1, h2, h3⟩ := parseArgs_usage_false_inv env argv0 rest hp
      exact ⟨_, main_of_usage env argv0 rest false hp, rfl, rfl, rfl,
        Or.inr (Or.inr (Or.inl ⟨⟨front, a, s, h1, h2, h3⟩, by simp [usageMessage]⟩))⟩
  | fail m =>
    refine ⟨_, main_of_fail env argv0 rest m hp, rfl, rfl, rfl, ?_⟩
    rcases parseArgs_fail_inv env argv0 rest m hp with
      ⟨front, v, post, s, h1, h2, h3, h4⟩ | ⟨front, v, post, s, h1, h2, h3, h4⟩
    · exact Or.inr (Or.inr (Or.inr (Or.inr (Or.inl ⟨⟨front, v, post, s, h1, h2, h3⟩, h4⟩))))
    · exact Or.inr (Or.inr (Or.inr (Or.inr (Or.inr ⟨⟨front, v, post, s, h1, h2, h3⟩, h4⟩))))
  | next s =>
    have hj := (parseArgs_positionals env argv0 rest s hp).1
    rw [h] at hj
    by_cases hne : rest = []
    · subst hne
      exact ⟨_, main_nil env argv0, rfl, rfl, rfl, Or.inl ⟨rfl, by simp [usageMessage]⟩⟩
    · refine ⟨⟨[usageLine argv0], 1, false, []⟩, ?_, rfl, rfl, rfl,
        Or.inr (Or.inr (Or.inr (Or.inl ⟨hne, ⟨s, rfl⟩, rfl⟩)))⟩
      rw [main_of_next env argv0 rest s hne hp]
      have : s.j ≠ 1 ∧ s.j ≠ 3 := by
        rw [hj]
        simp
      simp [finish, this, usageExit_cons, usageMessage]

/-- C11 (witness of the amended rule): only a flag with its value; the loop
reaches the end without error and the usage line is printed. -/
theorem missing_template_rule_witness :
    positionalsOf ["-t", "4"] = [] ∧
    main sampleEnv ["playexr", "-t", "4"] =
      .exited { err := [usageLine "playexr"], status := 1, atexitHook := false,
                calls := [] } ∧
    usageLine "playexr" :: helpText "playexr" sampleEnv.haveCtl ≠ [usageLine "playexr"] ∧
    ∃ r, main sampleEnv ["playexr", "-t", "4"] = .exited r ∧ r.status = 1 ∧ r.calls = [] ∧
      r.atexitHook = false :=
  ⟨by decide, by decide,
   (missing_template_rule sampleEnv "playexr" ["-t", "4"] (by decide)).1,
   match (missing_template_rule sampleEnv "playexr" ["-t", "4"] (by decide)).2 with
   | ⟨r, h1, h2, h3, h4, _⟩ => ⟨r, h1, h2, h3, h4⟩⟩

/-- C12. When the tokens before it parse without error and the last token
of the argument vector is `-t`, `-f` or `-C` in flag position, `main` prints
the usage line alone (not the long help), exits with status 1 and does not
call `playExr`. -/
theorem flag_without_value (env : Env) (argv0 : String) (front : List String) (a : String)
    (s : PState) (h : parseArgs env (argv0 :: front) = .next s)
    (ha : a = "-t" ∨ a = "-f" ∨ a = "-C") :
    main env (argv0 :: (front ++ [a])) =
      .exited { err := [usageLine argv0], status := 1, atexitHook := false, calls := [] } := by
  obtain ⟨f, hf⟩ : ∃ f, flagOf a = some f := by
    rcases ha with ha | ha | ha <;> subst ha
    · exact ⟨Flag.threads, rfl⟩
    · exact ⟨Flag.rate, rfl⟩
    · exact ⟨Flag.transform, rfl⟩
  have hp : parseArgs env (argv0 :: (front ++ [a])) = .usage false := by
    rw [parseArgs_cons] at h ⊢
    rw [items_append_of_run env front [a] initState s h, items_flag_last a f hf,
      runItems_append env (items front) _ initState s h]
    simp [runItems, applyItem]
  rw [main_of_usage env argv0 _ false hp]
  simp [usageMessage]

/-- C12 (witness): `img.%.exr -C`. -/
theorem flag_without_value_witness :
    parseArgs sampleEnv ["playexr", "img.%.exr"] =
      .next { initState with i := 2, j := 1, fileNameTemplate := some "img.%.exr",
                             templateWrites := 1 } ∧
    main sampleEnv ["playexr", "img.%.exr", "-C"] =
      .exited { err := [usageLine "playexr"], status := 1, atexitHook := false, calls := [] } :=
  ⟨by decide,
   flag_without_value sampleEnv "playexr" ["img.%.exr"] "-C"
     { initState with i := 2, j := 1, fileNameTemplate := some "img.%.exr",
                      templateWrites := 1 }
     (by decide) (Or.inr (Or.inr rfl))⟩

/-- C13. When the tokens before it parse without error and a `-h` stands in
flag position, `main` prints the usage line followed by the long help text,
exits with status 1 and does not call `playExr`, whatever tokens follow the
`-h`.  The usage line and the help text are the ones of `usageMessage` in the
source, written out here line by line for a build with and for a build
without `HAVE_CTL_INTERPRETER`. -/
theorem help_flag (env : Env) (argv0 : String) (front post : List String) (s : PState)
    (h : parseArgs env (argv0 :: front) = .next s) :
    main env (argv0 :: (front ++ "-h" :: post)) =
      .exited { err := usageLine argv0 :: helpText argv0 env.haveCtl, status := 1,
                atexitHook := false, calls := [] } ∧
    usageLine argv0 = "usage: " ++ argv0 ++ " [options] fileName [firstFrame lastFrame]" ∧
    helpText argv0 true =
      [ "",
        "Plays back a sequence of OpenEXR files.  All files must",
        "have the same data window and the same set of channels.",
        "The names of the files are constructed by substituting",
        "the first '%' in fileName with firstFrame, firstFrame+1,",
        "firstFrame+2, ... lastFrame.  For example,",
        "",
        "       " ++ argv0 ++ " image.%.exr 1 100",
        "",
        "plays back image.1.exr, image.2.exr ... image.100.exr.",
        "",
        "Options:",
        "",
        "-t n   read the images using n parallel threads",
        "",
        "-f n   images will be played back at a rate of n frames",
        "       per second (assuming that reading and displaying",
        "       an individual image file takes no more than 1/n",
        "       seconds).",
        "",
        "-C s   CTL transform s is applied to each image before it",
        "       is displayed.  Option -C can be specified multiple",
        "       times to apply a series of transforms to each image.",
        "       The transforms are applied in the order in which",
        "       they appear on the command line.",
        "",
        "-h     prints this message",
        "",
        "CTL transforms:",
        "",
        "       If one or more CTL transforms are specified on",
        "       the command line (using the -C flag), then those",
        "       transforms are applied to the images.",
        "       If no CTL transforms are specified on the command",
        "       line then a rendering transform is applied, followed",
        "       by a display transform.  The name of the rendering",
        "       transform is taken from the renderingTransform",
        "       attribute in the header of the first frame of the",
        "       image sequence.  If the header contains no such",
        "       attribute, the name of the rendering transform",
        "       is \"transform_RRT.\"  The name of the display",
        "       transform is taken from the environment variable",
        "       CTL_DISPLAY_TRANSFORM.  If this environment",
        "       variable is not set, the name of the display",
        "       transform is \"transform_display_video.\"",
        "       The files that contain the transforms are located",
        "       using the CTL_MODULE_PATH environment variable.",
        "",
        "Playback frame rate:",
        "",
        "       If the frame rate is not specified on the command",
        "       line (using the -f flag), then the frame rate is",
        "       determined by the framesPerSecond attribute in the",
        "       header of the first frame of the image sequence.",
        "       If the header contains no framesPerSecond attribute",
        "       then the frame rate is set to 24 frames per second.",
        "",
        "Keyboard commands:",
        "",
        "       L or P       play forward / pause",
        "       H            play backward / pause",
        "       K            step one frame forward",
        "       J            step one frame backward",
        "       > or .       increase exposure",
        "       < or ,       decrease exposure",
        "       C            CTL transforms on/off",
        "       O            text overlay on/off",
        "       F            full-screen mode on/off",
        "       Q or ESC     quit",
        "",
        "" ] ∧
    helpText argv0 false =
      [ "",
        "Plays back a sequence of OpenEXR files.  All files must",
        "have the same data window and the same set of channels.",
        "The names of the files are constructed by substituting",
        "the first '%' in fileName with firstFrame, firstFrame+1,",
        "firstFrame+2, ... lastFrame.  For example,",
        "",
        "       " ++ argv0 ++ " image.%.exr 1 100",
        "",
        "plays back image.1.exr, image.2.exr ... image.100.exr.",
        "",
        "Options:",
        "",
        "-t n   read the images using n parallel threads",
        "",
        "-f n   images will be played back at a rate of n frames",
        "       per second (assuming that reading and displaying",
        "       an individual image file takes no more than 1/n",
        "       seconds).",
        "",
        "-h     prints this message",
        "",
        "Playback frame rate:",
        "",
        "       If the frame rate is not specified on the command",
        "       line (using the -f flag), then the frame rate is",
        "       determined by the framesPerSecond attribute in the",
        "       header of the first frame of the image sequence.",
        "       If the header contains no framesPerSecond attribute",
        "       then the frame rate is set to 24 frames per second.",
        "",
        "Keyboard commands:",
        "",
        "       L or P       play forward / pause",
        "       H            play backward / pause",
        "       K            step one frame forward",
        "       J            step one frame backward",
        "       > or .       increase exposure",
        "       < or ,       decrease exposure",
        "       O            text overlay on/off",
        "       F            full-screen mode on/off",
        "       Q or ESC     quit",
        "",
        "" ] := by
  have hp : parseArgs env (argv0 :: (front ++ "-h" :: post)) = .usage true := by
    rw [parseArgs_cons] at h ⊢
    rw [items_append_of_run env front ("-h" :: post) initState s h, items_help,
      runItems_append env (items front) _ initState s h]
    simp [runItems, applyItem]
  refine ⟨?_, ?_, rfl, rfl⟩
  · rw [main_of_usage env argv0 _ true hp]
    simp [usageMessage]
  · simp [usageLine, String.append_assoc]

/-- C13 (witness): `-h` followed by tokens that would otherwise be rejected;
the output is the long help, not the usage line alone. -/
theorem help_flag_witness :
    parseArgs sampleEnv ["playexr"] = .next initState ∧
    main sampleEnv ["playexr", "-h", "-t", "-1"] =
      .exited { err := usageLine "playexr" :: helpText "playexr" sampleEnv.haveCtl,
                status := 1, atexitHook := false, calls := [] } ∧
    (usageLine "playexr" :: helpText "playexr" sampleEnv.haveCtl).length = 72 ∧
    usageLine "playexr" :: helpText "playexr" sampleEnv.haveCtl ≠ [usageLine "playexr"] :=
  ⟨by decide, (help_flag sampleEnv "playexr" [] ["-t", "-1"] initState (by decide)).1,
   by decide, by decide⟩

/-- C14. For every argument vector that passes parsing and validation: if
`IlmThread::supportsThreads ()` answers no, `main` prints the threading
diagnostic (followed by an empty line), exits with status 1, does not
register the exit hook and does not call `playExr`; and whenever `playExr`
is called or the hook registered, the check had answered yes. -/
theorem threading_precondition (env : Env) (argv0 : String) (rest : List String) (s : PState)
    (hv : Validated env (argv0 :: rest) s) :
    (env.supportsThreads = false →
      main env (argv0 :: rest) =
        .exited { err := msgNoThreads, status := 1, atexitHook := false, calls := [] }) ∧
    (∀ r, main env (argv0 :: rest) = .exited r →
      (r.calls ≠ [] ∨ r.atexitHook = true) → env.supportsThreads = true) := by
  obtain ⟨hlen, hp, hj, hfl⟩ := hv
  have hne : rest ≠ [] := by
    intro hnil
    subst hnil
    simp at hlen
  have hm := main_of_next env argv0 rest s hne hp
  have hj' : ¬ (s.j ≠ 1 ∧ s.j ≠ 3) := by omega
  have hf' : ¬ s.firstFrame > s.lastFrame := by omega
  constructor
  · intro ht
    rw [hm]
    simp [finish, hj', hf', ht, failExit]
  · intro r hr hc
    cases ht : env.supportsThreads with
    | true => rfl
    | false =>
      rw [hm] at hr
      simp [finish, hj', hf', ht, failExit] at hr
      subst hr
      simp at hc

/-- C14 (witness): `img.%.exr 1 5` on a runtime without threads. -/
theorem threading_precondition_witness :
    Validated sampleEnvNoThreads ["playexr", "img.%.exr", "1", "5"]
      { initState with i := 4, j := 3, fileNameTemplate := some "img.%.exr",
                       firstFrame := 1, lastFrame := 5, templateWrites := 1 } ∧
    main sampleEnvNoThreads ["playexr", "img.%.exr", "1", "5"] =
      .exited { err := msgNoThreads, status := 1, atexitHook := false, calls := [] } :=
  ⟨⟨by decide, by decide, by decide, by decide⟩,
   (threading_precondition sampleEnvNoThreads "playexr" ["img.%.exr", "1", "5"]
      { initState with i := 4, j := 3, fileNameTemplate := some "img.%.exr",
                       firstFrame := 1, lastFrame := 5, templateWrites := 1 }
      ⟨by decide, by decide, by decide, by decide⟩).1 rfl⟩

/-- C15 (counterexample). The template `img.exr` contains no `%`, and
`main` calls `playExr` with it. -/
theorem template_without_marker_accepted :
    hasMarker "img.exr" = false ∧
    main sampleEnv ["playexr", "img.exr"] =
      .exited { err := [], status := 0, atexitHook := true,
                calls := [{ fileNameTemplate := some "img.exr", firstFrame := 1,
                            lastFrame := 1, numThreads := 0, fps := CFloat.fin (-1),
                            transformNames := [] }] } := by
  decide

/-- C15 (amended). The launcher does not look into the template: a single
token that is none of `-t`, `-f`, `-C`, `-h`, with or without a `%`, is
accepted and handed to `playExr` as it is; and in every call of `playExr`
the template is the first positional token of the command line, unchanged. -/
theorem template_passed_unchecked (env : Env) (argv0 t : String)
    (ht : isPositional t = true) (hthr : env.supportsThreads = true) :
    (∃ r, main env [argv0, t] = .exited r ∧
      r.calls = [{ fileNameTemplate := some t, firstFrame := 1, lastFrame := 1,
                   numThreads := 0, fps := CFloat.fin (-1), transformNames := [] }]) ∧
    (∀ rest r a, main env (argv0 :: rest) = .exited r → a ∈ r.calls →
      a.fileNameTemplate = (positionalsOf rest)[0]? ∧ a.fileNameTemplate ≠ none) := by
  constructor
  · obtain ⟨ht1, ht2⟩ := (isPositional_iff t).1 ht
    have hp : parseArgs env [argv0, t] =
        .next { initState with i := 2, j := 1, fileNameTemplate := some t,
                               templateWrites := 1 } := by
      rw [parseArgs_cons, items_pos t _ ht1 ht2, items_nil]
      simp [runItems, applyItem, assignPositional, initState]
    obtain ⟨r, hr, hc, _⟩ := play_calls env
      { initState with i := 2, j := 1, fileNameTemplate := some t, templateWrites := 1 }
    refine ⟨r, ?_, ?_⟩
    · rw [main_of_next env argv0 _ _ (by simp) hp, ← hr]
      simp [finish, hthr, initState]
    · rw [hc]
      rfl
  · intro rest r a hr ha
    obtain ⟨⟨s, t1, hp, hs, _, ht1⟩, _⟩ := playback_config_invariant env argv0 rest r a hr ha
    have h2 := (parseArgs_positionals env argv0 rest s hp).2.1
    subst hs
    exact ⟨h2, by rw [ht1]; simp⟩

/-- C15 (witness of the amended rule): `img.exr`. -/
theorem template_passed_unchecked_witness :
    isPositional "img.exr" = true ∧ hasMarker "img.exr" = false ∧
    ∃ r, main sampleEnv ["playexr", "img.exr"] = .exited r ∧
      r.calls = [{ fileNameTemplate := some "img.exr", firstFrame := 1, lastFrame := 1,
                   numThreads := 0, fps := CFloat.fin (-1), transformNames := [] }] :=
  ⟨by decide, by decide,
   (template_passed_unchecked sampleEnv "playexr" "img.exr" (by decide) rfl).1⟩

/-- C16. A token at the loop index that is none of `-t`, `-f`, `-C`, `-h`
(whatever it looks like, the empty string included) takes the positional
branch: the index advances by one, `j` is incremented, and the token is
assigned by the value `j` had: template for 0, first frame for 1, last frame
for 2, nothing from 3 on. -/
theorem unknown_token_positional (env : Env) (argv : List String) (s : PState) (a : String)
    (hi : argv[s.i]? = some a) (ha : isPositional a = true) :
    step env argv s = .next { assignPositional s a with i := s.i + 1, j := s.j + 1 } ∧
    (s.j = 0 → (assignPositional s a).fileNameTemplate = some a) ∧
    (s.j = 1 → (assignPositional s a).firstFrame = toInt (strtol a)) ∧
    (s.j = 2 → (assignPositional s a).lastFrame = toInt (strtol a)) ∧
    (3 ≤ s.j → assignPositional s a = s) := by
  obtain ⟨h1, h2⟩ := (isPositional_iff a).1 ha
  obtain ⟨n1, n2, n3⟩ := flagOf_none a h1
  refine ⟨?_, ?_, ?_, ?_, ?_⟩
  · simp [step, hi, n1, n2, n3, h2]
  · intro hj; simp [assignPositional, hj]
  · intro hj; simp [assignPositional, hj]
  · intro hj; simp [assignPositional, hj]
  · intro hj
    unfold assignPositional
    split <;> first | rfl | omega

/-- C16 (witness): the vector `-x` is accepted with template `-x` and frames
1 and 1; `-T` and the empty string are positional tokens too. -/
theorem unknown_token_positional_witness :
    ["playexr", "-x"][initState.i]? = some "-x" ∧ isPositional "-x" = true ∧
    isPositional "-T" = true ∧ isPositional "" = true ∧
    step sampleEnv ["playexr", "-x"] initState =
      .next { assignPositional initState "-x" with i := initState.i + 1,
                                                   j := initState.j + 1 } ∧
    main sampleEnv ["playexr", "-x"] =
      .exited { err := [], status := 0, atexitHook := true,
                calls := [{ fileNameTemplate := some "-x", firstFrame := 1,
                            lastFrame := 1, numThreads := 0, fps := CFloat.fin (-1),
                            transformNames := [] }] } :=
  ⟨by decide, by decide, by decide, by decide,
   (unknown_token_positional sampleEnv ["playexr", "-x"] initState "-x"
      (by decide) (by decide)).1,
   by decide⟩

/-- C17. For every argument vector with `argc ≥ 1`, no read of `argv` in the
parsing loop or in `main` is out of range: the loop, from whatever state and
for whatever iteration bound, and `main` never reach the out-of-range branch
of a lookup; and wherever the guard `i > argc - 2` is false, `argv[i + 1]`
exists. -/
theorem reads_in_bounds (env : Env) (argv0 : String) (rest : List String) :
    (∀ fuel s, parseLoop env (argv0 :: rest) fuel s ≠ .badRead) ∧
    parseArgs env (argv0 :: rest) ≠ .badRead ∧
    main env (argv0 :: rest) ≠ .badRead ∧
    (∀ i : Nat, ¬ ((i : Int) > ((argv0 :: rest).length : Int) - 2) →
      ∃ v, (argv0 :: rest)[i + 1]? = some v) := by
  refine ⟨parseLoop_ne_badRead env _, parseArgs_ne_badRead env argv0 rest, ?_, ?_⟩
  · rcases main_cases env argv0 rest with ⟨v, hv⟩ | ⟨m, hm⟩ | ⟨s, _, _, hs⟩
    · rw [hv]; simp
    · rw [hm]; simp [failExit]
    · obtain ⟨r, hr, _⟩ := play_calls env s
      rw [hs, hr]; simp
  · intro i hg
    have hlt : i + 1 < (argv0 :: rest).length := by omega
    exact ⟨_, List.getElem?_eq_getElem hlt⟩

/-- C18. After tokens that parse without error, the token `v` that follows a
`-C`, `-t` or `-f` in flag position is only ever used as that flag's value,
whatever its spelling: behind `-C v` the loop goes on at the first token
after the pair with `v` appended to the transform list and nothing else
changed; behind `-t v` and `-f v` it either stops with that flag's
diagnostic or goes on at the first token after the pair with only the
thread count, respectively the frame rate, changed; and `v` is not among the
positional tokens. -/
theorem flag_value_consumed (env : Env) (argv0 : String) (front : List String) (v : String)
    (post : List String) (s : PState) (h : parseArgs env (argv0 :: front) = .next s) :
    s.i = front.length + 1 ∧
    parseArgs env (argv0 :: (front ++ "-C" :: v :: post)) =
      parseLoop env (argv0 :: (front ++ "-C" :: v :: post))
        (argv0 :: (front ++ "-C" :: v :: post)).length
        { s with transformNames := s.transformNames ++ [v], i := s.i + 2 } ∧
    parseArgs env (argv0 :: (front ++ "-t" :: v :: post)) =
      (if toInt (strtol v) < 0 then .fail msgThreads
       else parseLoop env (argv0 :: (front ++ "-t" :: v :: post))
        (argv0 :: (front ++ "-t" :: v :: post)).length
        { s with numThreads := toInt (strtol v), i := s.i + 2 }) ∧
    parseArgs env (argv0 :: (front ++ "-f" :: v :: post)) =
      (if CFloat.lt (env.strtof v) (CFloat.ofInt 1) || CFloat.gt (env.strtof v) (CFloat.ofInt 1000)
       then .fail msgFps
       else parseLoop env (argv0 :: (front ++ "-f" :: v :: post))
        (argv0 :: (front ++ "-f" :: v :: post)).length
        { s with fps := env.strtof v, i := s.i + 2 }) ∧
    (∀ a, a = "-C" ∨ a = "-t" ∨ a = "-f" →
      positionalsOf (front ++ a :: v :: post) = positionalsOf front ++ positionalsOf post) := by
  have hi := parseArgs_index env argv0 front s h
  refine ⟨hi, ?_, ?_, ?_, ?_⟩
  · rw [parseArgs_at_flag env argv0 front "-C" v post s Flag.transform h rfl,
      parseLoop_behind_pair env argv0 front "-C" v post _ (by simp [hi])]
    simp [runItems, applyItem]
  · rw [parseArgs_at_flag env argv0 front "-t" v post s Flag.threads h rfl]
    by_cases hn : toInt (strtol v) < 0
    · simp [runItems, applyItem, hn]
    · rw [parseLoop_behind_pair env argv0 front "-t" v post _ (by simp [hi])]
      simp [runItems, applyItem, hn]
  · rw [parseArgs_at_flag env argv0 front "-f" v post s Flag.rate h rfl]
    by_cases hn : (CFloat.lt (env.strtof v) (CFloat.ofInt 1) ||
        CFloat.gt (env.strtof v) (CFloat.ofInt 1000)) = true
    · simp only [runItems, applyItem, hn, if_true]
    · rw [parseLoop_behind_pair env argv0 front "-f" v post _ (by simp [hi])]
      simp [runItems, applyItem, hn]
  · intro a ha
    have hd : ∀ g, Item.dangling g ∉ items front := by
      rw [parseArgs_cons] at h
      exact runItems_no_dangling env (items front) initState s h
    rcases ha with ha | ha | ha <;> subst ha
    · exact positionalsOf_pair front _ v post Flag.transform rfl hd
    · exact positionalsOf_pair front _ v post Flag.threads rfl hd
    · exact positionalsOf_pair front _ v post Flag.rate rfl hd

/-- C18 (witness): `-C -h img` is accepted with the transform list `[-h]` and
the template `img` and prints no help; `-C -t img` leaves the thread count
at 0. -/
theorem flag_value_consumed_witness :
    parseArgs sampleEnv ["playexr"] = .next initState ∧
    initState.i = ([] : List String).length + 1 ∧
    main sampleEnv ["playexr", "-C", "-h", "img"] =
      .exited { err := [], status := 0, atexitHook := true,
                calls := [{ fileNameTemplate := some "img", firstFrame := 1,
                            lastFrame := 1, numThreads := 0, fps := CFloat.fin (-1),
                            transformNames := ["-h"] }] } ∧
    main sampleEnv ["playexr", "-C", "-t", "img"] =
      .exited { err := [], status := 0, atexitHook := true,
                calls := [{ fileNameTemplate := some "img", firstFrame := 1,
                            lastFrame := 1, numThreads := 0, fps := CFloat.fin (-1),
                            transformNames := ["-t"] }] } :=
  ⟨by decide,
   (flag_value_consumed sampleEnv "playexr" [] "-h" ["img"] initState (by decide)).1,
   by decide, by decide⟩

/-- C19. The outcome reported is that of the first defect in processing
order.  A flag error met by the loop (a rejected value, a missing value, a
`-h`) after tokens that parse without error is what `main` reports, whatever
follows it.  When the loop ends without a flag error and the number of
positional tokens is neither 1 nor 3, `main` prints the usage line, whatever
the frame numbers are.  And the frame-order diagnostic is printed only when
the loop ended without a flag error, the count is 1 or 3 and first > last. -/
theorem error_precedence (env : Env) (argv0 : String) (rest : List String) :
    (∀ front tail s, rest = front ++ tail → tail ≠ [] →
      parseArgs env (argv0 :: front) = .next s →
      (∀ m, step env (argv0 :: rest) s = .fail m →
        main env (argv0 :: rest) =
          .exited { err := m, status := 1, atexitHook := false, calls := [] }) ∧
      (∀ v, step env (argv0 :: rest) s = .usage v →
        main env (argv0 :: rest) =
          .exited { err := usageMessage env argv0 v, status := 1, atexitHook := false,
                    calls := [] })) ∧
    (∀ s, rest ≠ [] → parseArgs env (argv0 :: rest) = .next s → s.j ≠ 1 ∧ s.j ≠ 3 →
      main env (argv0 :: rest) =
        .exited { err := [usageLine argv0], status := 1, atexitHook := false, calls := [] }) ∧
    (main env (argv0 :: rest) =
        .exited { err := msgFrames, status := 1, atexitHook := false, calls := [] } →
      ∃ s, parseArgs env (argv0 :: rest) = .next s ∧ (s.j = 1 ∨ s.j = 3) ∧
        s.firstFrame > s.lastFrame) := by
  refine ⟨?_, ?_, ?_⟩
  · intro front tail s hrest htail hp
    subst hrest
    have hi := parseArgs_index env argv0 front s hp
    have hlt : s.i < (front ++ tail).length + 1 := by
      have : 0 < tail.length := List.length_pos.2 htail
      rw [hi, List.length_append]
      omega
    have hres := parseArgs_resume env argv0 front tail s hp
    simp only [List.length_cons, parseLoop, hlt, if_true] at hres
    constructor
    · intro m hm
      rw [hm] at hres
      rw [main_of_fail env argv0 _ m hres]
      rfl
    · intro v hv
      rw [hv] at hres
      exact main_of_usage env argv0 _ v hres
  · intro s hne hp hj
    rw [main_of_next env argv0 rest s hne hp]
    simp [finish, hj, usageExit_cons, usageMessage]
  · intro hm
    cases hp : parseArgs env (argv0 :: rest) with
    | badRead => exact absurd hp (parseArgs_ne_badRead env _ _)
    | noFuel => exact absurd hp (parseArgs_ne_noFuel env _ _)
    | usage v =>
      rw [main_of_usage env argv0 rest v hp] at hm
      simp only [Outcome.exited.injEq, Result.mk.injEq] at hm
      exact absurd hm.1 (usageMessage_ne_msgFrames env argv0 v)
    | fail m =>
      rw [main_of_fail env argv0 rest m hp] at hm
      simp only [failExit, Outcome.exited.injEq, Result.mk.injEq] at hm
      rw [parseArgs_cons] at hp
      rcases runItems_fail env _ _ m hp with h1 | h1
      · rw [h1] at hm; exact absurd hm.1 (by decide)
      · rw [h1] at hm; exact absurd hm.1 (by decide)
    | next s =>
      by_cases hne : rest = []
      · subst hne
        rw [main_nil] at hm
        simp only [Outcome.exited.injEq, Result.mk.injEq] at hm
        exact absurd hm.1 (usageMessage_ne_msgFrames env argv0 true)
      · rw [main_of_next env argv0 rest s hne hp] at hm
        by_cases hj : s.j ≠ 1 ∧ s.j ≠ 3
        · rw [finish, if_pos hj, usageExit_cons] at hm
          simp only [Outcome.exited.injEq, Result.mk.injEq] at hm
          exact absurd hm.1 (usageMessage_ne_msgFrames env argv0 false)
        · by_cases hf : s.firstFrame > s.lastFrame
          · exact ⟨s, rfl, by omega, hf⟩
          · exfalso
            cases ht : env.supportsThreads with
            | false =>
              simp [finish, hj, hf, ht, failExit] at hm
              revert hm
              decide
            | true =>
              obtain ⟨r, hr, _, hk⟩ := play_calls env s
              simp [finish, hj, hf, ht, hr] at hm
              rw [hm] at hk
              simp at hk

/-- C19 (witness): `img 5 1 -t -1` gives the thread-count diagnostic, not the
frame-order diagnostic; and `img 5` gives the usage line, not the
frame-order diagnostic. -/
theorem error_precedence_witness :
    parseArgs sampleEnv ["playexr", "img", "5", "1"] =
      .next { initState with i := 4, j := 3, fileNameTemplate := some "img",
                             firstFrame := 5, lastFrame := 1, templateWrites := 1 } ∧
    main sampleEnv ["playexr", "img", "5", "1", "-t", "-1"] =
      .exited { err := msgThreads, status := 1, atexitHook := false, calls := [] } ∧
    main sampleEnv ["playexr", "img", "5"] =
      .exited { err := [usageLine "playexr"], status := 1, atexitHook := false,
                calls := [] } ∧
    msgThreads ≠ msgFrames ∧ [usageLine "playexr"] ≠ msgFrames :=
  ⟨by decide,
   ((error_precedence sampleEnv "playexr" ["img", "5", "1", "-t", "-1"]).1
      ["img", "5", "1"] ["-t", "-1"]
      { initState with i := 4, j := 3, fileNameTemplate := some "img",
                       firstFrame := 5, lastFrame := 1, templateWrites := 1 }
      rfl (by decide) (by decide)).1 msgThreads (by decide),
   (error_precedence sampleEnv "playexr" ["img", "5"]).2.1
      { initState with i := 3, j := 2, fileNameTemplate := some "img",
                       firstFrame := 5, templateWrites := 1 }
      (by decide) (by decide) (by decide),
   by decide, by decide⟩

end PlayExr
